import Mathlib

/-!
Verification of the scanning routines in `src/format/scan.rs` of the chrono
repository.  Rust `&str` values are modelled as lists of bytes (`List Nat`,
each entry `< 256` for genuine inputs); a borrowed remainder `&s[i..]` is
`s.drop i`.  `ParseResult<T>` is `Except ParseError T`.  Rust code that can
panic (out-of-bounds indexing into the `SCALE` table) is modelled with an
outer `Option`: `none` is a panic, `some r` is a normal, classified return.
Machine integers (`i64`) are modelled as `Int` together with explicit
checked arithmetic that mirrors `checked_mul` / `checked_add`.
-/

set_option maxRecDepth 4000

/-- The three error kinds used by `scan.rs` (`TOO_SHORT`, `INVALID`,
`OUT_OF_RANGE`). -/
inductive ParseError where
  | TooShort
  | Invalid
  | OutOfRange
  deriving DecidableEq, Repr

/-- `ParseResult<T>` from the source, specialised to the three error kinds. -/
abbrev ParseResult (α : Type) := Except ParseError α

instance {ε α : Type} [DecidableEq ε] [DecidableEq α] : DecidableEq (Except ε α) :=
  fun x y =>
    match x, y with
    | .ok a, .ok b =>
      if h : a = b then .isTrue (by rw [h]) else .isFalse (fun h' => h (Except.ok.inj h'))
    | .error a, .error b =>
      if h : a = b then .isTrue (by rw [h]) else .isFalse (fun h' => h (Except.error.inj h'))
    | .ok _, .error _ => .isFalse (fun h' => Except.noConfusion h')
    | .error _, .ok _ => .isFalse (fun h' => Except.noConfusion h')

/-- Byte list of an ASCII string literal (every character below 0x80, so the
code of each char is its UTF-8 byte). -/
def bytesOfAscii (s : String) : List Nat := s.data.map Char.toNat

/-- `u8::is_ascii_digit` (also used on chars, where it tests the same code
points `'0'..='9'`). -/
def isAsciiDigit (c : Nat) : Bool := decide (48 ≤ c ∧ c ≤ 57)

/-- `u8::is_ascii_alphabetic`. -/
def isAsciiAlpha (c : Nat) : Bool :=
  decide ((65 ≤ c ∧ c ≤ 90) ∨ (97 ≤ c ∧ c ≤ 122))

/-- The byte-wise lower-casing step of `equals`: uppercase ASCII letters get
32 added, all other bytes pass through. -/
def lowerByte (c : Nat) : Nat := if 65 ≤ c ∧ c ≤ 90 then c + 32 else c

/-- `equals(s, pattern)` from the source: simultaneous iteration over both
sequences, folding the scanned bytes to lower case; the pattern is assumed
pre-lowercased.  Length mismatch in either direction is `false`. -/
def equals : List Nat → List Nat → Bool
  | [], [] => true
  | [], _ :: _ => false
  | _ :: _, [] => false
  | x :: xs, y :: ys => if lowerByte x ≠ y then false else equals xs ys

/-- A UTF-8 continuation byte. -/
def isCont (b : Nat) : Bool := decide (128 ≤ b ∧ b ≤ 191)

/-- Decodes the first `char` of a `&str` viewed as its UTF-8 bytes, returning
the code point and the remaining bytes.  Rust guarantees the bytes are valid
UTF-8, on which this decoder is exact; on malformed input (unreachable from
`&str`) it consumes the single leading byte.  Overlong forms are rejected by
the code-point floor checks, so a multi-byte lead always yields a code point
`≥ 128`. -/
def utf8DecodeFirst : List Nat → Option (Nat × List Nat)
  | [] => none
  | b :: t =>
    if b < 128 then some (b, t)
    else if 192 ≤ b ∧ b < 224 then
      match t with
      | b1 :: t1 =>
        if isCont b1 ∧ 128 ≤ (b - 192) * 64 + (b1 - 128) then
          some ((b - 192) * 64 + (b1 - 128), t1)
        else some (b, t)
      | [] => some (b, t)
    else if 224 ≤ b ∧ b < 240 then
      match t with
      | b1 :: b2 :: t2 =>
        if isCont b1 ∧ isCont b2 ∧
            2048 ≤ (b - 224) * 4096 + (b1 - 128) * 64 + (b2 - 128) then
          some ((b - 224) * 4096 + (b1 - 128) * 64 + (b2 - 128), t2)
        else some (b, t)
      | _ => some (b, t)
    else if 240 ≤ b ∧ b < 248 then
      match t with
      | b1 :: b2 :: b3 :: t3 =>
        if isCont b1 ∧ isCont b2 ∧ isCont b3 ∧
            65536 ≤ (b - 240) * 262144 + (b1 - 128) * 4096 +
              (b2 - 128) * 64 + (b3 - 128) then
          some ((b - 240) * 262144 + (b1 - 128) * 4096 +
            (b2 - 128) * 64 + (b3 - 128), t3)
        else some (b, t)
      | _ => some (b, t)
    else some (b, t)

/-- `char::is_whitespace` (the Unicode `White_Space` code points). -/
def isWhitespaceChar (cp : Nat) : Bool :=
  decide (cp = 9 ∨ cp = 10 ∨ cp = 11 ∨ cp = 12 ∨ cp = 13 ∨ cp = 32 ∨
    cp = 133 ∨ cp = 160 ∨ cp = 5760 ∨ (8192 ≤ cp ∧ cp ≤ 8202) ∨
    cp = 8232 ∨ cp = 8233 ∨ cp = 8239 ∨ cp = 8287 ∨ cp = 12288)

/-- `s_next(s)`: the slice remaining after the first char (empty when the
input has zero or one chars). -/
def s_next (s : List Nat) : List Nat :=
  match utf8DecodeFirst s with
  | some (_, rest) => rest
  | none => []

/-- `trim1(s)`: drop the first char when it is whitespace, otherwise return
the input unchanged. -/
def trim1 (s : List Nat) : List Nat :=
  match utf8DecodeFirst s with
  | some (cp, _) => if isWhitespaceChar cp then s_next s else s
  | none => s

theorem utf8DecodeFirst_result (s : List Nat) (cp : Nat) (r : List Nat)
    (h : utf8DecodeFirst s = some (cp, r)) :
    r.IsSuffix s ∧ r.length < s.length := by
  cases s with
  | nil => simp [utf8DecodeFirst] at h
  | cons b t =>
    have d1 : t.IsSuffix (b :: t) ∧ t.length < (b :: t).length :=
      ⟨⟨[b], rfl⟩, by simp⟩
    simp only [utf8DecodeFirst] at h
    split at h
    · cases Option.some.inj h; exact d1
    · split at h
      · split at h
        · split at h
          · cases Option.some.inj h
            exact ⟨⟨[b, _], rfl⟩, by simp; omega⟩
          · cases Option.some.inj h; exact d1
        · cases Option.some.inj h; exact d1
      · split at h
        · split at h
          · split at h
            · cases Option.some.inj h
              exact ⟨⟨[b, _, _], rfl⟩, by simp; omega⟩
            · cases Option.some.inj h; exact d1
          · cases Option.some.inj h; exact d1
        · split at h
          · split at h
            · split at h
              · cases Option.some.inj h
                exact ⟨⟨[b, _, _, _], rfl⟩, by simp; omega⟩
              · cases Option.some.inj h; exact d1
            · cases Option.some.inj h; exact d1
          · cases Option.some.inj h; exact d1

/-- Fuel-driven loop of `trim_left_matches`: each decoded char consumes at
least one byte, so fuel `s.length` never runs out (see
`trimLeftMatches_eq`). -/
def trimLeftMatchesGo (p : Nat → Bool) : Nat → List Nat → List Nat
  | 0, s => s
  | fuel + 1, s =>
    match utf8DecodeFirst s with
    | some (cp, rest) => if p cp then trimLeftMatchesGo p fuel rest else s
    | none => s

/-- `str::trim_left_matches(p)` where `p` is a per-char predicate on the code
point: repeatedly drop the leading char while it satisfies `p`. -/
def trimLeftMatches (p : Nat → Bool) (s : List Nat) : List Nat :=
  trimLeftMatchesGo p s.length s

lemma trimLeftMatchesGo_nil (p : Nat → Bool) : ∀ f, trimLeftMatchesGo p f [] = [] := by
  intro f
  cases f with
  | zero => rfl
  | succ g => simp [trimLeftMatchesGo, utf8DecodeFirst]

lemma trimLeftMatchesGo_congr (p : Nat → Bool) : ∀ (f1 : Nat) (s : List Nat) (f2 : Nat),
    s.length ≤ f1 → s.length ≤ f2 →
    trimLeftMatchesGo p f1 s = trimLeftMatchesGo p f2 s := by
  intro f1
  induction f1 with
  | zero =>
    intro s f2 h1 _
    have : s = [] := List.length_eq_zero.mp (by omega)
    rw [this, trimLeftMatchesGo_nil, trimLeftMatchesGo_nil]
  | succ f ih =>
    intro s f2 h1 h2
    cases s with
    | nil => rw [trimLeftMatchesGo_nil, trimLeftMatchesGo_nil]
    | cons b t =>
      have hlen : (b :: t).length = t.length + 1 := by simp
      obtain ⟨g, rfl⟩ : ∃ g, f2 = g + 1 := ⟨f2 - 1, by omega⟩
      simp only [trimLeftMatchesGo]
      cases hdec : utf8DecodeFirst (b :: t) with
      | none => rfl
      | some x =>
        obtain ⟨cp, rest⟩ := x
        have hr := (utf8DecodeFirst_result (b :: t) cp rest hdec).2
        by_cases hp : p cp
        · simp only [hp, if_true]
          exact ih rest g (by omega) (by omega)
        · simp only [hp]
          rfl

/-- One-step unfolding of `trim_left_matches`. -/
lemma trimLeftMatches_eq (p : Nat → Bool) (s : List Nat) :
    trimLeftMatches p s =
      match utf8DecodeFirst s with
      | some (cp, rest) => if p cp then trimLeftMatches p rest else s
      | none => s := by
  cases s with
  | nil => simp [trimLeftMatches, trimLeftMatchesGo_nil, utf8DecodeFirst]
  | cons b t =>
    show trimLeftMatchesGo p (t.length + 1) (b :: t) = _
    simp only [trimLeftMatchesGo]
    cases hdec : utf8DecodeFirst (b :: t) with
    | none => rfl
    | some x =>
      obtain ⟨cp, rest⟩ := x
      have hr := (utf8DecodeFirst_result (b :: t) cp rest hdec).2
      by_cases hp : p cp
      · simp only [hp, if_true]
        exact trimLeftMatchesGo_congr p t.length rest rest.length (by simp at hr; omega)
          (le_refl _)
      · simp only [hp]
        rfl

/-- `str::trim_left()` / `str::trim_start()`: drop leading Unicode
whitespace. -/
def trimLeft (s : List Nat) : List Nat := trimLeftMatches isWhitespaceChar s

/-- `i64::MAX`. -/
def i64Max : Int := 9223372036854775807

/-- `i64::MIN`. -/
def i64Min : Int := -9223372036854775808

/-- `i64::checked_mul`. -/
def checkedMul (a b : Int) : Option Int :=
  if i64Min ≤ a * b ∧ a * b ≤ i64Max then some (a * b) else none

/-- `i64::checked_add`. -/
def checkedAdd (a b : Int) : Option Int :=
  if i64Min ≤ a + b ∧ a + b ≤ i64Max then some (a + b) else none

/-- The value accumulated by `number`'s loop over a digit run, starting from
accumulator `a`. -/
def digitsValFrom (a : Int) (ds : List Nat) : Int :=
  ds.foldl (fun x c => x * 10 + ((c : Int) - 48)) a

/-- The numeric value of a run of ASCII digit bytes,
most-significant-first. -/
def digitsVal (ds : List Nat) : Int := digitsValFrom 0 ds

/-- The loop of `number`, running over the (at most `max`-long) scanned
window with current index `i` and accumulator `n`.  Mirrors the source: a
non-digit byte before index `min` is `Invalid`, afterwards an early success;
each digit is folded in with checked arithmetic. -/
def number_go (mn : Nat) : List Nat → Nat → Int → ParseResult (Nat × Int)
  | [], i, n => .ok (i, n)
  | c :: rest, i, n =>
    if isAsciiDigit c = false then
      if i < mn then .error .Invalid else .ok (i, n)
    else
      match (checkedMul n 10).bind (fun m => checkedAdd m ((c : Int) - 48)) with
      | none => .error .OutOfRange
      | some n' => number_go mn rest (i + 1) n'

/-- `number(s, min, max)`: parse a non-negative number of `min` to `max`
digits.  The source's `assert!(min <= max)` is a caller obligation; every
theorem below carries it as a hypothesis. -/
def number (s : List Nat) (mn mx : Nat) : ParseResult (List Nat × Int) :=
  if s.length < mn then .error .TooShort
  else
    match number_go mn (s.take mx) 0 0 with
    | .error e => .error e
    | .ok (i, n) => .ok (s.drop i, n)

lemma isAsciiDigit_iff {c : Nat} : isAsciiDigit c = true ↔ 48 ≤ c ∧ c ≤ 57 := by
  simp [isAsciiDigit]

lemma digitsValFrom_cons (a : Int) (c : Nat) (ds : List Nat) :
    digitsValFrom a (c :: ds) = digitsValFrom (a * 10 + ((c : Int) - 48)) ds := rfl

lemma i64Min_le_of_nonneg {x : Int} (h : 0 ≤ x) : i64Min ≤ x := by
  have : i64Min ≤ 0 := by norm_num [i64Min]
  linarith

lemma checkedMul_eq_some {a b : Int} (h1 : i64Min ≤ a * b) (h2 : a * b ≤ i64Max) :
    checkedMul a b = some (a * b) := by simp [checkedMul, h1, h2]

lemma checkedAdd_eq_some {a b : Int} (h1 : i64Min ≤ a + b) (h2 : a + b ≤ i64Max) :
    checkedAdd a b = some (a + b) := by simp [checkedAdd, h1, h2]

lemma checkedMul_eq_none {a b : Int} (h : i64Max < a * b) : checkedMul a b = none := by
  simp only [checkedMul, ite_eq_right_iff]
  rintro ⟨-, h2⟩
  linarith

lemma checkedAdd_eq_none {a b : Int} (h : i64Max < a + b) : checkedAdd a b = none := by
  simp only [checkedAdd, ite_eq_right_iff]
  rintro ⟨-, h2⟩
  linarith

lemma digitsValFrom_le : ∀ (ds : List Nat) (a : Int),
    (∀ x ∈ ds, isAsciiDigit x = true) → 0 ≤ a → a ≤ digitsValFrom a ds := by
  intro ds
  induction ds with
  | nil => intro a _ _; simp [digitsValFrom]
  | cons c ds ih =>
    intro a hds ha
    have hc := isAsciiDigit_iff.mp (hds c (by simp))
    have hc1 : (48 : Int) ≤ (c : Int) := by exact_mod_cast hc.1
    have ha' : 0 ≤ a * 10 + ((c : Int) - 48) := by
      have : 0 ≤ a * 10 := by linarith
      linarith
    have := ih (a * 10 + ((c : Int) - 48)) (fun x hx => hds x (by simp [hx])) ha'
    rw [digitsValFrom_cons]
    linarith

/-- The loop of `number` over a pure digit run that never overflows: it
consumes everything and accumulates the value. -/
lemma number_go_digits : ∀ (ds : List Nat) (mn i : Nat) (a : Int),
    (∀ x ∈ ds, isAsciiDigit x = true) → 0 ≤ a → digitsValFrom a ds ≤ i64Max →
    number_go mn ds i a = .ok (i + ds.length, digitsValFrom a ds) := by
  intro ds
  induction ds with
  | nil => intro mn i a _ _ _; simp [number_go, digitsValFrom]
  | cons c ds ih =>
    intro mn i a hds ha hbound
    have hcT : isAsciiDigit c = true := hds c (by simp)
    have hc := isAsciiDigit_iff.mp hcT
    have hc1 : (48 : Int) ≤ (c : Int) := by exact_mod_cast hc.1
    have hdsrest : ∀ x ∈ ds, isAsciiDigit x = true := fun x hx => hds x (by simp [hx])
    have ha' : 0 ≤ a * 10 + ((c : Int) - 48) := by
      have : 0 ≤ a * 10 := by linarith
      linarith
    rw [digitsValFrom_cons] at hbound
    have hrest_le := digitsValFrom_le ds (a * 10 + ((c : Int) - 48)) hdsrest ha'
    have hmul : checkedMul a 10 = some (a * 10) :=
      checkedMul_eq_some (i64Min_le_of_nonneg (by linarith)) (by linarith)
    have hadd : checkedAdd (a * 10) ((c : Int) - 48) = some (a * 10 + ((c : Int) - 48)) :=
      checkedAdd_eq_some (i64Min_le_of_nonneg ha') (by linarith)
    simp only [number_go, hcT, Bool.true_eq_false, if_false, hmul, Option.some_bind, hadd]
    rw [ih mn (i + 1) _ hdsrest ha' hbound, digitsValFrom_cons]
    have : i + 1 + ds.length = i + (c :: ds).length := by simp; omega
    rw [this]

/-- The loop of `number` on input whose digit run overflows `i64`:
`OutOfRange`, whatever follows the run. -/
lemma number_go_overflow : ∀ (ds : List Nat) (rest : List Nat) (mn i : Nat) (a : Int),
    (∀ x ∈ ds, isAsciiDigit x = true) → 0 ≤ a → a ≤ i64Max →
    i64Max < digitsValFrom a ds →
    number_go mn (ds ++ rest) i a = .error .OutOfRange := by
  intro ds
  induction ds with
  | nil =>
    intro rest mn i a _ _ hle hover
    simp [digitsValFrom] at hover
    linarith
  | cons c ds ih =>
    intro rest mn i a hds ha hle hover
    have hcT : isAsciiDigit c = true := hds c (by simp)
    have hc := isAsciiDigit_iff.mp hcT
    have hc1 : (48 : Int) ≤ (c : Int) := by exact_mod_cast hc.1
    have hc2 : (c : Int) ≤ 57 := by exact_mod_cast hc.2
    have hdsrest : ∀ x ∈ ds, isAsciiDigit x = true := fun x hx => hds x (by simp [hx])
    rw [digitsValFrom_cons] at hover
    by_cases hm : i64Max < a * 10
    · have hmul : checkedMul a 10 = none := checkedMul_eq_none hm
      simp [number_go, hcT, hmul]
    · push_neg at hm
      have hmul : checkedMul a 10 = some (a * 10) :=
        checkedMul_eq_some (i64Min_le_of_nonneg (by positivity)) hm
      by_cases hadd0 : i64Max < a * 10 + ((c : Int) - 48)
      · have hadd : checkedAdd (a * 10) ((c : Int) - 48) = none := checkedAdd_eq_none hadd0
        simp [number_go, hcT, hmul, hadd]
      · push_neg at hadd0
        have ha' : 0 ≤ a * 10 + ((c : Int) - 48) := by
          have : 0 ≤ a * 10 := by positivity
          linarith
        have hadd : checkedAdd (a * 10) ((c : Int) - 48) =
            some (a * 10 + ((c : Int) - 48)) :=
          checkedAdd_eq_some (i64Min_le_of_nonneg ha') hadd0
        simp only [List.cons_append, number_go, hcT, Bool.true_eq_false, if_false,
          hmul, Option.some_bind, hadd]
        exact ih rest mn (i + 1) _ hdsrest ha' hadd0 hover

/-- The loop of `number` on a digit run followed by a non-digit: stop there,
`Invalid` when the run ends before index `min`. -/
lemma number_go_stop : ∀ (ds : List Nat) (c : Nat) (rest : List Nat) (mn i : Nat) (a : Int),
    (∀ x ∈ ds, isAsciiDigit x = true) → isAsciiDigit c = false → 0 ≤ a →
    digitsValFrom a ds ≤ i64Max →
    number_go mn (ds ++ c :: rest) i a =
      if i + ds.length < mn then .error .Invalid
      else .ok (i + ds.length, digitsValFrom a ds) := by
  intro ds
  induction ds with
  | nil =>
    intro c rest mn i a _ hc _ _
    simp [number_go, hc, digitsValFrom]
  | cons d ds ih =>
    intro c rest mn i a hds hc ha hbound
    have hdT : isAsciiDigit d = true := hds d (by simp)
    have hd := isAsciiDigit_iff.mp hdT
    have hd1 : (48 : Int) ≤ (d : Int) := by exact_mod_cast hd.1
    have hdsrest : ∀ x ∈ ds, isAsciiDigit x = true := fun x hx => hds x (by simp [hx])
    have ha' : 0 ≤ a * 10 + ((d : Int) - 48) := by
      have : 0 ≤ a * 10 := by positivity
      linarith
    rw [digitsValFrom_cons] at hbound
    have hrest_le := digitsValFrom_le ds (a * 10 + ((d : Int) - 48)) hdsrest ha'
    have hmul : checkedMul a 10 = some (a * 10) :=
      checkedMul_eq_some (i64Min_le_of_nonneg (by positivity)) (by linarith)
    have hadd : checkedAdd (a * 10) ((d : Int) - 48) = some (a * 10 + ((d : Int) - 48)) :=
      checkedAdd_eq_some (i64Min_le_of_nonneg ha') (by linarith)
    simp only [List.cons_append, number_go, hdT, Bool.true_eq_false, if_false,
      hmul, Option.some_bind, hadd]
    show number_go mn (ds ++ c :: rest) (i + 1) (a * 10 + ((d : Int) - 48)) =
      if i + (d :: ds).length < mn then .error .Invalid
      else .ok (i + (d :: ds).length, digitsValFrom a (d :: ds))
    rw [ih c rest mn (i + 1) _ hdsrest hc ha' hbound, digitsValFrom_cons]
    have hlen : i + 1 + ds.length = i + (d :: ds).length := by simp; omega
    rw [hlen]

/-- Values produced by `number`'s loop from a non-negative accumulator stay
non-negative. -/
lemma number_go_nonneg : ∀ (bs : List Nat) (mn i : Nat) (a : Int) (j : Nat) (v : Int),
    0 ≤ a → number_go mn bs i a = .ok (j, v) → 0 ≤ v := by
  intro bs
  induction bs with
  | nil =>
    intro mn i a j v ha h
    simp only [number_go] at h
    cases Except.ok.inj h
    exact ha
  | cons c bs ih =>
    intro mn i a j v ha h
    simp only [number_go] at h
    split at h
    · split at h
      · exact absurd h (by simp)
      · cases Except.ok.inj h
        exact ha
    · rename_i hdig
      have hcT : isAsciiDigit c = true := by
        cases hx : isAsciiDigit c
        · exact absurd hx hdig
        · rfl
      have hc := isAsciiDigit_iff.mp hcT
      have hc1 : (48 : Int) ≤ (c : Int) := by exact_mod_cast hc.1
      split at h
      · exact absurd h (by simp)
      · rename_i n' hn'
        have hmul0 : 0 ≤ a * 10 := by positivity
        have : n' = a * 10 + ((c : Int) - 48) := by
          by_cases hm : i64Min ≤ a * 10 ∧ a * 10 ≤ i64Max
          · simp only [checkedMul, if_pos hm, Option.some_bind, checkedAdd] at hn'
            split at hn'
            · exact (Option.some.inj hn').symm
            · exact absurd hn' (by simp)
          · simp only [checkedMul, if_neg hm, Option.none_bind] at hn'
            exact absurd hn' (by simp)
        subst this
        exact ih mn (i + 1) _ j v (by linarith) h

lemma dropWhile_head_false (p : Nat → Bool) :
    ∀ (s : List Nat) (c : Nat) (rest : List Nat), s.dropWhile p = c :: rest → p c = false := by
  intro s
  induction s with
  | nil => intro c rest h; simp [List.dropWhile] at h
  | cons a s ih =>
    intro c rest h
    rw [List.dropWhile_cons] at h
    split at h
    · exact ih c rest h
    · rename_i hpa
      cases h
      cases hx : p a
      · rfl
      · exact absurd hx hpa

/-- Full characterization of `number` in the absence of `i64` overflow among
the scanned digits. -/
lemma number_eq (s : List Nat) (mn mx : Nat) (hmm : mn ≤ mx)
    (hov : digitsVal ((s.takeWhile isAsciiDigit).take mx) ≤ i64Max) :
    number s mn mx =
      if s.length < mn then .error .TooShort
      else if (s.takeWhile isAsciiDigit).length < mn then .error .Invalid
      else .ok (s.drop (min (s.takeWhile isAsciiDigit).length mx),
                digitsVal ((s.takeWhile isAsciiDigit).take mx)) := by
  have hsplit : s.takeWhile isAsciiDigit ++ s.dropWhile isAsciiDigit = s :=
    List.takeWhile_append_dropWhile isAsciiDigit s
  have hdig : ∀ x ∈ s.takeWhile isAsciiDigit, isAsciiDigit x = true :=
    fun x hx => List.mem_takeWhile_imp hx
  have hnlen : (s.takeWhile isAsciiDigit).length ≤ s.length := by
    conv_rhs => rw [← hsplit]
    rw [List.length_append]
    omega
  by_cases hlen : s.length < mn
  · simp [number, hlen]
  · rw [if_neg hlen]
    by_cases hmx : mx ≤ (s.takeWhile isAsciiDigit).length
    · have htake : s.take mx = (s.takeWhile isAsciiDigit).take mx := by
        conv_lhs => rw [← hsplit]
        rw [List.take_append_eq_append_take]
        have h0 : mx - (s.takeWhile isAsciiDigit).length = 0 := by omega
        rw [h0]
        simp
      have hdig' : ∀ x ∈ (s.takeWhile isAsciiDigit).take mx, isAsciiDigit x = true :=
        fun x hx => hdig x (List.mem_of_mem_take hx)
      have hlen' : ((s.takeWhile isAsciiDigit).take mx).length = mx := by
        simp [List.length_take]
        omega
      have hgo := number_go_digits ((s.takeWhile isAsciiDigit).take mx) mn 0 0
        hdig' (le_refl 0) hov
      rw [if_neg (by omega : ¬ (s.takeWhile isAsciiDigit).length < mn)]
      simp only [number, if_neg hlen, htake, hgo, hlen']
      rw [Nat.min_eq_right hmx]
      simp [digitsVal]
    · push_neg at hmx
      have htake_dp : (s.takeWhile isAsciiDigit).take mx = s.takeWhile isAsciiDigit :=
        List.take_of_length_le (le_of_lt hmx)
      rw [htake_dp] at hov ⊢
      cases ht' : s.dropWhile isAsciiDigit with
      | nil =>
        have hs_eq : s.takeWhile isAsciiDigit = s := by
          conv_rhs => rw [← hsplit, ht', List.append_nil]
        have hslen : s.length < mx := hs_eq ▸ hmx
        have hdig' : ∀ x ∈ s, isAsciiDigit x = true := hs_eq ▸ hdig
        rw [hs_eq] at hov ⊢
        rw [if_neg hlen, Nat.min_eq_left (le_of_lt hslen)]
        have htake : s.take mx = s := List.take_of_length_le (le_of_lt hslen)
        have hgo := number_go_digits s mn 0 0 hdig' (le_refl 0) hov
        simp only [number, if_neg hlen, htake, hgo]
        simp [digitsVal]
      | cons c rest =>
        have hc : isAsciiDigit c = false := dropWhile_head_false _ s c rest ht'
        obtain ⟨k, hk⟩ : ∃ k, mx - (s.takeWhile isAsciiDigit).length = k + 1 :=
          ⟨mx - (s.takeWhile isAsciiDigit).length - 1, by omega⟩
        have htake : s.take mx = s.takeWhile isAsciiDigit ++ c :: rest.take k := by
          conv_lhs => rw [← hsplit, ht']
          rw [List.take_append_eq_append_take, htake_dp, hk, List.take_succ_cons]
        have hgo := number_go_stop (s.takeWhile isAsciiDigit) c (rest.take k) mn 0 0
          hdig hc (le_refl 0) hov
        rw [Nat.min_eq_left (le_of_lt hmx)]
        simp only [number, if_neg hlen, htake, hgo]
        by_cases h2 : (s.takeWhile isAsciiDigit).length < mn
        · rw [if_pos (by omega : 0 + (s.takeWhile isAsciiDigit).length < mn), if_pos h2]
        · rw [if_neg (by omega : ¬ 0 + (s.takeWhile isAsciiDigit).length < mn), if_neg h2]
          simp [digitsVal]

/-- C3 (amended): for every `min ≤ max` and input whose longest ASCII-digit
run has length `n`, provided the value of the first `min(n, max)` digits
does not exceed `i64::MAX`: if `n < min` the call fails, `TooShort` exactly
when the total input length is `< min` and `Invalid` otherwise; if
`n ≥ min` it succeeds, consuming exactly `min(n, max)` bytes and returning
the input's suffix from the consumed byte count as remainder. -/
theorem c3_number_characterization (s : List Nat) (mn mx : Nat) (hmm : mn ≤ mx)
    (hov : digitsVal ((s.takeWhile isAsciiDigit).take mx) ≤ i64Max) :
    ((s.takeWhile isAsciiDigit).length < mn →
      number s mn mx = .error (if s.length < mn then .TooShort else .Invalid))
    ∧ (mn ≤ (s.takeWhile isAsciiDigit).length →
      number s mn mx =
        .ok (s.drop (min (s.takeWhile isAsciiDigit).length mx),
          digitsVal ((s.takeWhile isAsciiDigit).take mx))) := by
  rw [number_eq s mn mx hmm hov]
  constructor
  · intro hn
    by_cases hlen : s.length < mn
    · rw [if_pos hlen, if_pos hlen]
    · rw [if_neg hlen, if_neg hlen, if_pos hn]
  · intro hn
    have hle : (s.takeWhile isAsciiDigit).length ≤ s.length := by
      have h := List.takeWhile_append_dropWhile isAsciiDigit s
      conv_rhs => rw [← h]
      rw [List.length_append]
      omega
    rw [if_neg (by omega : ¬ s.length < mn), if_neg (by omega)]

/-- C3 counterexample: on nineteen nines with `min = 1 ≤ max = 19` the digit
run has length `19 ≥ min`, so the claim predicts success consuming all 19
digits; the code instead fails `OutOfRange` because the value exceeds
`i64::MAX`. -/
theorem c3_number_counterexample :
    number (bytesOfAscii "9999999999999999999") 1 19 = .error .OutOfRange ∧
    number (bytesOfAscii "9999999999999999999") 1 19 ≠
      .ok (([] : List Nat), digitsVal (bytesOfAscii "9999999999999999999")) := by
  decide

theorem c3_number_witness :
    number (bytesOfAscii "123a5") 1 2 = .ok (bytesOfAscii "3a5", 12) ∧
    number (bytesOfAscii "1a") 2 3 = .error .Invalid ∧
    number (bytesOfAscii "1") 2 3 = .error .TooShort := by
  refine ⟨?_, ?_, ?_⟩
  · have h := (c3_number_characterization (bytesOfAscii "123a5") 1 2 (by decide)
      (by decide)).2 (by decide)
    rw [h]
    decide
  · have h := (c3_number_characterization (bytesOfAscii "1a") 2 3 (by decide)
      (by decide)).1 (by decide)
    rw [h]
    decide
  · have h := (c3_number_characterization (bytesOfAscii "1") 2 3 (by decide)
      (by decide)).1 (by decide)
    rw [h]
    decide

/-- C8: a successful `number` always returns a non-negative value, and when
the scanned digits denote a value beyond the 64-bit signed range the result
is the `OutOfRange` failure, never a wrapped-around value. -/
theorem c8_number_nonneg_and_overflow :
    (∀ (s : List Nat) (mn mx : Nat) (r : List Nat) (v : Int), mn ≤ mx →
      number s mn mx = .ok (r, v) → 0 ≤ v)
    ∧ (∀ (s : List Nat) (mn mx : Nat), mn ≤ mx → mn ≤ s.length →
      i64Max < digitsVal ((s.takeWhile isAsciiDigit).take mx) →
      number s mn mx = .error .OutOfRange) := by
  constructor
  · intro s mn mx r v _ h
    simp only [number] at h
    split at h
    · exact absurd h (by simp)
    · split at h
      · exact absurd h (by simp)
      · rename_i i n hgo
        obtain ⟨h1, h2⟩ := Prod.mk.inj (Except.ok.inj h)
        rw [← h2]
        exact number_go_nonneg (s.take mx) mn 0 0 i n (le_refl 0) hgo
  · intro s mn mx hmm hmn hov
    have hsplit := List.takeWhile_append_dropWhile isAsciiDigit s
    have hdig : ∀ x ∈ (s.takeWhile isAsciiDigit).take mx, isAsciiDigit x = true :=
      fun x hx => List.mem_takeWhile_imp (List.mem_of_mem_take hx)
    have htake : s.take mx = (s.takeWhile isAsciiDigit).take mx ++
        (s.dropWhile isAsciiDigit).take (mx - (s.takeWhile isAsciiDigit).length) := by
      conv_lhs => rw [← hsplit]
      exact List.take_append_eq_append_take
    simp only [number, if_neg (by omega : ¬ s.length < mn)]
    rw [htake, number_go_overflow _ _ mn 0 0 hdig (le_refl 0)
      (by norm_num [i64Max]) hov]

theorem c8_number_witness :
    (0 : Int) ≤ 12 ∧
    number (bytesOfAscii "99999999999999999999") 1 20 = .error .OutOfRange := by
  constructor
  · exact c8_number_nonneg_and_overflow.1 (bytesOfAscii "12") 1 2 [] 12
      (by decide) (by decide)
  · exact c8_number_nonneg_and_overflow.2 (bytesOfAscii "99999999999999999999") 1 20
      (by decide) (by decide) (by decide)

/-- The `SCALE` table shared by `nanosecond` and `nanosecond_fixed`. -/
def SCALE : List Int :=
  [0, 100000000, 10000000, 1000000, 100000, 10000, 1000, 100, 10, 1]

/-- `nanosecond(s)`: 1–9 digits via `number`, scaled so the first digit is
hundred-millionths, then any further digits are skipped.  `SCALE[consumed]`
is modelled with `List.get?`; `none` would be the panic (unreachable here,
as `consumed` is 1–9). -/
def nanosecond (s : List Nat) : Option (ParseResult (List Nat × Int)) :=
  match number s 1 9 with
  | .error e => some (.error e)
  | .ok (s1, v) =>
    match SCALE.get? (s.length - s1.length) with
    | none => none
    | some sc =>
      match checkedMul v sc with
      | none => some (.error .OutOfRange)
      | some v' => some (.ok (trimLeftMatches isAsciiDigit s1, v'))

/-- `nanosecond_fixed(s, digits)`: exactly `digits` digits, same scaling; the
`SCALE[digits]` indexing panics (`none`) when `digits` is out of the
10-entry table. -/
def nanosecond_fixed (s : List Nat) (digits : Nat) : Option (ParseResult (List Nat × Int)) :=
  match number s digits digits with
  | .error e => some (.error e)
  | .ok (s1, v) =>
    match SCALE.get? digits with
    | none => none
    | some sc =>
      match checkedMul v sc with
      | none => some (.error .OutOfRange)
      | some v' => some (.ok (s1, v'))

lemma digitsValFrom_lt : ∀ (ds : List Nat) (a : Int),
    (∀ x ∈ ds, isAsciiDigit x = true) → 0 ≤ a →
    digitsValFrom a ds < (a + 1) * 10 ^ ds.length := by
  intro ds
  induction ds with
  | nil =>
    intro a _ _
    simp [digitsValFrom]
  | cons c ds ih =>
    intro a hds ha
    have hcT := hds c (by simp)
    have hc := isAsciiDigit_iff.mp hcT
    have hc1 : (48 : Int) ≤ (c : Int) := by exact_mod_cast hc.1
    have hc2 : (c : Int) ≤ 57 := by exact_mod_cast hc.2
    have ha' : 0 ≤ a * 10 + ((c : Int) - 48) := by
      have : 0 ≤ a * 10 := by positivity
      linarith
    rw [digitsValFrom_cons]
    have hih := ih (a * 10 + ((c : Int) - 48)) (fun x hx => hds x (by simp [hx])) ha'
    have hstep : (a * 10 + ((c : Int) - 48) + 1) * 10 ^ ds.length ≤
        (a + 1) * 10 ^ (ds.length + 1) := by
      have h10 : a * 10 + ((c : Int) - 48) + 1 ≤ (a + 1) * 10 := by linarith
      have hpow : (0 : Int) ≤ 10 ^ ds.length := by positivity
      calc (a * 10 + ((c : Int) - 48) + 1) * 10 ^ ds.length
          ≤ ((a + 1) * 10) * 10 ^ ds.length := mul_le_mul_of_nonneg_right h10 hpow
        _ = (a + 1) * 10 ^ (ds.length + 1) := by rw [pow_succ]; ring
    have hlen : (c :: ds).length = ds.length + 1 := by simp
    rw [hlen]
    linarith

lemma digitsVal_nonneg (ds : List Nat) (h : ∀ x ∈ ds, isAsciiDigit x = true) :
    0 ≤ digitsVal ds := digitsValFrom_le ds 0 h (le_refl 0)

lemma SCALE_get (k : Nat) (h1 : 1 ≤ k) (h2 : k ≤ 9) :
    SCALE.get? k = some (10 ^ (9 - k)) := by
  interval_cases k <;> decide

/-- A multi-byte UTF-8 lead never decodes below code point 128. -/
lemma utf8DecodeFirst_high (b : Nat) (t : List Nat) (cp : Nat) (r : List Nat)
    (hb : 128 ≤ b) (h : utf8DecodeFirst (b :: t) = some (cp, r)) : 128 ≤ cp := by
  simp only [utf8DecodeFirst] at h
  split at h
  · omega
  · split at h
    · split at h
      · split at h
        · rename_i hcond
          cases Option.some.inj h
          omega
        · cases Option.some.inj h
          exact hb
      · cases Option.some.inj h
        exact hb
    · split at h
      · split at h
        · split at h
          · rename_i hcond
            cases Option.some.inj h
            omega
          · cases Option.some.inj h
            exact hb
        · cases Option.some.inj h
          exact hb
      · split at h
        · split at h
          · split at h
            · rename_i hcond
              cases Option.some.inj h
              omega
            · cases Option.some.inj h
              exact hb
          · cases Option.some.inj h
            exact hb
        · cases Option.some.inj h
          exact hb

/-- `trim_left_matches(is_ascii_digit)` stops immediately at a non-digit
head (or empty input). -/
lemma trimLeftMatches_stop (t : List Nat)
    (h : ∀ c rest, t = c :: rest → isAsciiDigit c = false) :
    trimLeftMatches isAsciiDigit t = t := by
  rw [trimLeftMatches_eq]
  split
  · rename_i cp rest' heq
    cases t with
    | nil => simp [utf8DecodeFirst] at heq
    | cons c rest =>
      have hc := h c rest rfl
      by_cases hlow : c < 128
      · have hdec : utf8DecodeFirst (c :: rest) = some (c, rest) := by
          simp only [utf8DecodeFirst]
          rw [if_pos hlow]
        rw [hdec] at heq
        obtain ⟨h1, h2⟩ := Prod.mk.inj (Option.some.inj heq)
        rw [← h1, hc]
        simp
      · have hcp := utf8DecodeFirst_high c rest cp rest' (by omega) heq
        have : isAsciiDigit cp = false := by
          simp only [isAsciiDigit, decide_eq_false_iff_not]
          omega
        rw [this]
        simp
  · rfl

/-- `trim_left_matches(is_ascii_digit)` crosses a leading run of ASCII digit
bytes. -/
lemma trimLeftMatches_digits_append : ∀ (ds t : List Nat),
    (∀ x ∈ ds, isAsciiDigit x = true) →
    trimLeftMatches isAsciiDigit (ds ++ t) = trimLeftMatches isAsciiDigit t := by
  intro ds
  induction ds with
  | nil => intro t _; simp
  | cons c ds ih =>
    intro t hds
    have hcT := hds c (by simp)
    have hc := isAsciiDigit_iff.mp hcT
    have hdec : utf8DecodeFirst (c :: (ds ++ t)) = some (c, ds ++ t) := by
      simp only [utf8DecodeFirst]
      rw [if_pos (by omega : c < 128)]
    rw [List.cons_append, trimLeftMatches_eq]
    split
    · rename_i cp rest' heq
      rw [hdec] at heq
      obtain ⟨h1, h2⟩ := Prod.mk.inj (Option.some.inj heq)
      rw [← h1, ← h2, hcT]
      simp only [if_true]
      exact ih t (fun x hx => hds x (by simp [hx]))
    · rename_i heq
      rw [hdec] at heq
      exact absurd heq (by simp)

lemma drop_append_all {α : Type} (l1 l2 : List α) (k : Nat) (hk : k ≤ l1.length) :
    (l1 ++ l2).drop k = l1.drop k ++ l2 := by
  rw [List.drop_append_eq_append_drop, (by omega : k - l1.length = 0), List.drop_zero]

/-- The general behaviour of `nanosecond` on input starting with at least
one ASCII digit. -/
lemma nanosecond_general (s : List Nat)
    (hn : 1 ≤ (s.takeWhile isAsciiDigit).length) :
    nanosecond s = some (.ok (s.drop (s.takeWhile isAsciiDigit).length,
      digitsVal ((s.takeWhile isAsciiDigit).take 9) *
        10 ^ (9 - min (s.takeWhile isAsciiDigit).length 9))) := by
  have hsplit := List.takeWhile_append_dropWhile isAsciiDigit s
  have hdigAll : ∀ x ∈ s.takeWhile isAsciiDigit, isAsciiDigit x = true :=
    fun x hx => List.mem_takeWhile_imp hx
  have hnlen : (s.takeWhile isAsciiDigit).length ≤ s.length := by
    conv_rhs => rw [← hsplit]
    rw [List.length_append]
    omega
  have hdigTake : ∀ x ∈ (s.takeWhile isAsciiDigit).take 9, isAsciiDigit x = true :=
    fun x hx => hdigAll x (List.mem_of_mem_take hx)
  have hlenTake : ((s.takeWhile isAsciiDigit).take 9).length =
      min (s.takeWhile isAsciiDigit).length 9 := by
    rw [List.length_take]
    omega
  have hk1 : 1 ≤ min (s.takeWhile isAsciiDigit).length 9 := by omega
  have hk9 : min (s.takeWhile isAsciiDigit).length 9 ≤ 9 := by omega
  have hbound : digitsVal ((s.takeWhile isAsciiDigit).take 9) <
      10 ^ (min (s.takeWhile isAsciiDigit).length 9) := by
    have h := digitsValFrom_lt ((s.takeWhile isAsciiDigit).take 9) 0 hdigTake (le_refl 0)
    rw [hlenTake] at h
    simpa [digitsVal] using h
  have hpowle : (10 : Int) ^ (min (s.takeWhile isAsciiDigit).length 9) ≤ 10 ^ 9 :=
    pow_le_pow_right₀ (by norm_num) hk9
  have hovr : digitsVal ((s.takeWhile isAsciiDigit).take 9) ≤ i64Max := by
    have h9 : (10 : Int) ^ 9 ≤ i64Max := by norm_num [i64Max]
    linarith
  have hnum := number_eq s 1 9 (by norm_num) hovr
  rw [if_neg (by omega : ¬ s.length < 1), if_neg (by omega), ] at hnum
  simp only [nanosecond, hnum]
  have hcons : s.length - (s.drop (min (s.takeWhile isAsciiDigit).length 9)).length =
      min (s.takeWhile isAsciiDigit).length 9 := by
    rw [List.length_drop]
    omega
  rw [hcons, SCALE_get _ hk1 hk9]
  dsimp only
  have hvnn : 0 ≤ digitsVal ((s.takeWhile isAsciiDigit).take 9) :=
    digitsVal_nonneg _ hdigTake
  have hscnn : (0 : Int) ≤ 10 ^ (9 - min (s.takeWhile isAsciiDigit).length 9) := by
    positivity
  have hprod_lt : digitsVal ((s.takeWhile isAsciiDigit).take 9) *
      10 ^ (9 - min (s.takeWhile isAsciiDigit).length 9) < 10 ^ 9 := by
    calc digitsVal ((s.takeWhile isAsciiDigit).take 9) *
        10 ^ (9 - min (s.takeWhile isAsciiDigit).length 9)
        < 10 ^ (min (s.takeWhile isAsciiDigit).length 9) *
            10 ^ (9 - min (s.takeWhile isAsciiDigit).length 9) :=
          mul_lt_mul_of_pos_right hbound (by positivity)
      _ = 10 ^ 9 := by
          rw [← pow_add]
          congr 1
          omega
  have hmul : checkedMul (digitsVal ((s.takeWhile isAsciiDigit).take 9))
      (10 ^ (9 - min (s.takeWhile isAsciiDigit).length 9)) =
      some (digitsVal ((s.takeWhile isAsciiDigit).take 9) *
        10 ^ (9 - min (s.takeWhile isAsciiDigit).length 9)) := by
    apply checkedMul_eq_some
    · exact i64Min_le_of_nonneg (mul_nonneg hvnn hscnn)
    · have h9 : (10 : Int) ^ 9 ≤ i64Max + 1 := by norm_num [i64Max]
      linarith
  rw [hmul]
  dsimp only
  have hrem : trimLeftMatches isAsciiDigit
      (s.drop (min (s.takeWhile isAsciiDigit).length 9)) =
      s.drop (s.takeWhile isAsciiDigit).length := by
    have h1 := drop_append_all (s.takeWhile isAsciiDigit) (s.dropWhile isAsciiDigit)
      (min (s.takeWhile isAsciiDigit).length 9) (by omega)
    rw [hsplit] at h1
    have h2 : ∀ x ∈ (s.takeWhile isAsciiDigit).drop
        (min (s.takeWhile isAsciiDigit).length 9), isAsciiDigit x = true :=
      fun x hx => hdigAll x (List.mem_of_mem_drop hx)
    have h3 := drop_append_all (s.takeWhile isAsciiDigit) (s.dropWhile isAsciiDigit)
      (s.takeWhile isAsciiDigit).length (le_refl _)
    rw [hsplit, List.drop_length, List.nil_append] at h3
    rw [h1, trimLeftMatches_digits_append _ _ h2, h3]
    exact trimLeftMatches_stop _ (fun c rest hc => dropWhile_head_false _ s c rest hc)
  rw [hrem]

/-- C6: `nanosecond` consumes 1–9 fractional digits, scaling them so the
first digit counts hundred-millionths, and silently skips (without
including in the value and without error) every digit after the ninth; the
spec's four concrete examples hold. -/
theorem c6_nanosecond_scaling :
    (∀ s : List Nat, 1 ≤ (s.takeWhile isAsciiDigit).length →
      nanosecond s = some (.ok (s.drop (s.takeWhile isAsciiDigit).length,
        digitsVal ((s.takeWhile isAsciiDigit).take 9) *
          10 ^ (9 - min (s.takeWhile isAsciiDigit).length 9))))
    ∧ nanosecond (bytesOfAscii "2X") = some (.ok (bytesOfAscii "X", 200000000))
    ∧ nanosecond (bytesOfAscii "8") = some (.ok ([], 800000000))
    ∧ nanosecond_fixed [] 0 = some (.ok ([], 0))
    ∧ nanosecond_fixed [] 1 = some (.error .TooShort) := by
  refine ⟨fun s hn => nanosecond_general s hn, ?_, ?_, ?_, ?_⟩ <;> decide

theorem c6_nanosecond_witness :
    nanosecond (bytesOfAscii "12X") = some (.ok (bytesOfAscii "X", 120000000)) := by
  have h := c6_nanosecond_scaling.1 (bytesOfAscii "12X") (by decide)
  rw [h]
  decide

/-- C10 (amended): `nanosecond_fixed` returns a classified result for every
`digits ≤ 9`; for `digits ≥ 10`, on any input beginning with at least
`digits` ASCII digits whose scanned value fits in `i64`, the
`SCALE[digits]` access is out of the 10-entry table and the call panics
instead of returning a classified failure. -/
theorem c10_nanosecond_fixed_totality :
    (∀ (s : List Nat) (digits : Nat), digits ≤ 9 →
      (nanosecond_fixed s digits).isSome = true)
    ∧ (∀ (s : List Nat) (digits : Nat), 10 ≤ digits →
      digits ≤ (s.takeWhile isAsciiDigit).length →
      digitsVal ((s.takeWhile isAsciiDigit).take digits) ≤ i64Max →
      nanosecond_fixed s digits = none) := by
  constructor
  · intro s digits hd
    have hsc : ∃ sc, SCALE.get? digits = some sc := by
      interval_cases digits <;> exact ⟨_, rfl⟩
    obtain ⟨sc, hsc⟩ := hsc
    simp only [nanosecond_fixed]
    split
    · rfl
    · rw [hsc]
      dsimp only
      split
      · rfl
      · rfl
  · intro s digits hd hrun hov
    have hnlen : (s.takeWhile isAsciiDigit).length ≤ s.length := by
      have h := List.takeWhile_append_dropWhile isAsciiDigit s
      conv_rhs => rw [← h]
      rw [List.length_append]
      omega
    have hnum := number_eq s digits digits (le_refl digits) hov
    rw [if_neg (by omega : ¬ s.length < digits), if_neg (by omega)] at hnum
    have hnone : SCALE.get? digits = none := by
      apply List.get?_eq_none.mpr
      have : SCALE.length = 10 := by decide
      omega
    simp only [nanosecond_fixed, hnum, hnone]

/-- C10 counterexample: with `digits = 19` the input of nineteen nines does
begin with `digits` ASCII digits, yet the call does not panic: `number`
fails `OutOfRange` on overflow before the table access, returning a
classified failure. -/
theorem c10_nanosecond_fixed_counterexample :
    nanosecond_fixed (bytesOfAscii "9999999999999999999") 19 =
      some (.error .OutOfRange) ∧
    nanosecond_fixed (bytesOfAscii "9999999999999999999") 19 ≠ none := by
  decide

theorem c10_nanosecond_fixed_witness :
    (nanosecond_fixed (bytesOfAscii "123") 2).isSome = true ∧
    nanosecond_fixed (bytesOfAscii "0000000000") 10 = none := by
  constructor
  · exact c10_nanosecond_fixed_totality.1 (bytesOfAscii "123") 2 (by decide)
  · exact c10_nanosecond_fixed_totality.2 (bytesOfAscii "0000000000") 10
      (by decide) (by decide) (by decide)

/-- `Weekday` from the crate root (only what `scan.rs` needs). -/
inductive Weekday where
  | Mon
  | Tue
  | Wed
  | Thu
  | Fri
  | Sat
  | Sun
  deriving DecidableEq, Repr

/-- `Weekday::num_days_from_monday`. -/
def Weekday.num_days_from_monday : Weekday → Nat
  | .Mon => 0
  | .Tue => 1
  | .Wed => 2
  | .Thu => 3
  | .Fri => 4
  | .Sat => 5
  | .Sun => 6

/-- The 12-entry lowercased three-letter month table of `short_month0`. -/
def month0FromLower (a b c : Nat) : Option Nat :=
  match a, b, c with
  | 106, 97, 110 => some 0
  | 102, 101, 98 => some 1
  | 109, 97, 114 => some 2
  | 97, 112, 114 => some 3
  | 109, 97, 121 => some 4
  | 106, 117, 110 => some 5
  | 106, 117, 108 => some 6
  | 97, 117, 103 => some 7
  | 115, 101, 112 => some 8
  | 111, 99, 116 => some 9
  | 110, 111, 118 => some 10
  | 100, 101, 99 => some 11
  | _, _, _ => none

/-- `short_month0(s)`: month index 0–11 from the first three ASCII letters,
folded to lower case with `| 32`; an unrecognized triple is `Invalid`,
fewer than three bytes `TooShort`. -/
def short_month0 (s : List Nat) : ParseResult (List Nat × Nat) :=
  match s with
  | b0 :: b1 :: b2 :: rest =>
    match month0FromLower (b0 ||| 32) (b1 ||| 32) (b2 ||| 32) with
    | some month0 => .ok (rest, month0)
    | none => .error .Invalid
  | _ => .error .TooShort

/-- The 7-entry lowercased three-letter weekday table of `short_weekday`. -/
def weekdayFromLower (a b c : Nat) : Option Weekday :=
  match a, b, c with
  | 109, 111, 110 => some .Mon
  | 116, 117, 101 => some .Tue
  | 119, 101, 100 => some .Wed
  | 116, 104, 117 => some .Thu
  | 102, 114, 105 => some .Fri
  | 115, 97, 116 => some .Sat
  | 115, 117, 110 => some .Sun
  | _, _, _ => none

/-- `short_weekday(s)`: weekday from the first three ASCII letters. -/
def short_weekday (s : List Nat) : ParseResult (List Nat × Weekday) :=
  match s with
  | b0 :: b1 :: b2 :: rest =>
    match weekdayFromLower (b0 ||| 32) (b1 ||| 32) (b2 ||| 32) with
    | some weekday => .ok (rest, weekday)
    | none => .error .Invalid
  | _ => .error .TooShort

/-- Lowercased long month names minus their first three chars. -/
def LONG_MONTH_SUFFIXES : List (List Nat) :=
  [bytesOfAscii "uary", bytesOfAscii "ruary", bytesOfAscii "ch", bytesOfAscii "il",
   bytesOfAscii "", bytesOfAscii "e", bytesOfAscii "y", bytesOfAscii "ust",
   bytesOfAscii "tember", bytesOfAscii "ober", bytesOfAscii "ember", bytesOfAscii "ember"]

/-- Lowercased long weekday names minus their first three chars. -/
def LONG_WEEKDAY_SUFFIXES : List (List Nat) :=
  [bytesOfAscii "day", bytesOfAscii "sday", bytesOfAscii "nesday", bytesOfAscii "rsday",
   bytesOfAscii "day", bytesOfAscii "urday", bytesOfAscii "day"]

/-- `short_or_long_month0(s)`; the suffix lookup
`LONG_MONTH_SUFFIXES[month0]` (index always 0–11) is written with `getD`. -/
def short_or_long_month0 (s : List Nat) : ParseResult (List Nat × Nat) :=
  match short_month0 s with
  | .error e => .error e
  | .ok (s1, month0) =>
    if (LONG_MONTH_SUFFIXES.getD month0 []).length ≤ s1.length ∧
        equals (s1.take (LONG_MONTH_SUFFIXES.getD month0 []).length)
          (LONG_MONTH_SUFFIXES.getD month0 []) = true then
      .ok (s1.drop (LONG_MONTH_SUFFIXES.getD month0 []).length, month0)
    else
      .ok (s1, month0)

/-- `short_or_long_weekday(s)`. -/
def short_or_long_weekday (s : List Nat) : ParseResult (List Nat × Weekday) :=
  match short_weekday s with
  | .error e => .error e
  | .ok (s1, weekday) =>
    if (LONG_WEEKDAY_SUFFIXES.getD weekday.num_days_from_monday []).length ≤ s1.length ∧
        equals (s1.take (LONG_WEEKDAY_SUFFIXES.getD weekday.num_days_from_monday []).length)
          (LONG_WEEKDAY_SUFFIXES.getD weekday.num_days_from_monday []) = true then
      .ok (s1.drop (LONG_WEEKDAY_SUFFIXES.getD weekday.num_days_from_monday []).length,
        weekday)
    else
      .ok (s1, weekday)

/-- C7: whenever the 3-letter short form resolves, the short-or-long
routines never fail: they consume the long-form suffix exactly when it fits
in the remaining input and matches case-insensitively in full, and
otherwise leave the cursor right after the short form; the spec's two
concrete examples hold. -/
theorem c7_short_or_long_never_fails :
    (∀ (s s1 : List Nat) (m : Nat), short_month0 s = .ok (s1, m) →
      short_or_long_month0 s =
        .ok (if (LONG_MONTH_SUFFIXES.getD m []).length ≤ s1.length ∧
              equals (s1.take (LONG_MONTH_SUFFIXES.getD m []).length)
                (LONG_MONTH_SUFFIXES.getD m []) = true
            then s1.drop (LONG_MONTH_SUFFIXES.getD m []).length else s1, m))
    ∧ (∀ (s s1 : List Nat) (w : Weekday), short_weekday s = .ok (s1, w) →
      short_or_long_weekday s =
        .ok (if (LONG_WEEKDAY_SUFFIXES.getD w.num_days_from_monday []).length ≤ s1.length ∧
              equals (s1.take (LONG_WEEKDAY_SUFFIXES.getD w.num_days_from_monday []).length)
                (LONG_WEEKDAY_SUFFIXES.getD w.num_days_from_monday []) = true
            then s1.drop (LONG_WEEKDAY_SUFFIXES.getD w.num_days_from_monday []).length
            else s1, w))
    ∧ short_or_long_month0 (bytesOfAscii "Apr?") = .ok (bytesOfAscii "?", 3)
    ∧ short_or_long_weekday (bytesOfAscii "sAtu") = .ok (bytesOfAscii "u", .Sat) := by
  refine ⟨?_, ?_, by decide, by decide⟩
  · intro s s1 m h
    simp only [short_or_long_month0, h]
    split
    · rfl
    · rfl
  · intro s s1 w h
    simp only [short_or_long_weekday, h]
    split
    · rfl
    · rfl

theorem c7_short_or_long_witness :
    short_or_long_month0 (bytesOfAscii "JANUary!") = .ok (bytesOfAscii "!", 0) ∧
    short_or_long_weekday (bytesOfAscii "friDAY") = .ok ([], .Fri) := by
  constructor
  · have h := c7_short_or_long_never_fails.1 (bytesOfAscii "JANUary!")
      (bytesOfAscii "Uary!") 0 (by decide)
    rw [h]
    decide
  · have h := c7_short_or_long_never_fails.2.1 (bytesOfAscii "friDAY")
      (bytesOfAscii "DAY") .Fri (by decide)
    rw [h]
    decide

/-- `char(s, c1)`: consume exactly one given byte. -/
def char (s : List Nat) (c1 : Nat) : ParseResult (List Nat) :=
  match s with
  | c :: rest => if c = c1 then .ok rest else .error .Invalid
  | [] => .error .TooShort

/-- `space(s)`: consume one or more leading whitespace chars. -/
def space (s : List Nat) : ParseResult (List Nat) :=
  if (trimLeft s).length < s.length then .ok (trimLeft s)
  else if s.length = 0 then .error .TooShort
  else .error .Invalid

/-- `consume_colon_maybe(s)`: drop one leading `:` when present; always
succeeds. -/
def consume_colon_maybe (s : List Nat) : ParseResult (List Nat) :=
  if s.length = 0 then .ok s
  else if s.head? = some 58 then .ok (s_next s)
  else .ok s

/-- `timezone_name_skip(s)`: drop everything up to the next whitespace
char. -/
def timezone_name_skip (s : List Nat) : ParseResult (List Nat × Unit) :=
  .ok (trimLeftMatches (fun cp => !isWhitespaceChar cp) s, ())

/-- The inner `digits` helper of `timezone_offset_internal`: the first two
bytes, `TooShort` when fewer exist. -/
def tzDigits (s : List Nat) : ParseResult (Nat × Nat) :=
  match s with
  | b0 :: b1 :: _ => .ok (b0, b1)
  | _ => .error .TooShort

/-- `timezone_offset_internal(s, consume_colon, allow_missing_minutes)`:
sign, two hour digits (00–99), the injected separator consumer, then two
minute digits (00–59; tens digit 6–9 is `OutOfRange`); when minutes are
entirely absent (fewer than two bytes remain) they default to 0 under the
flag, and the final cursor adjustment still demands 0 or ≥ 2 remaining
bytes. -/
def timezone_offset_internal (s : List Nat)
    (consume_colon : List Nat → ParseResult (List Nat))
    (allow_missing_minutes : Bool) : ParseResult (List Nat × Int) :=
  match s with
  | [] => .error .TooShort
  | c :: s1 =>
    if c = 43 ∨ c = 45 then
      match tzDigits s1 with
      | .error e => .error e
      | .ok (h1, h2) =>
        if isAsciiDigit h1 = true ∧ isAsciiDigit h2 = true then
          match consume_colon (s1.drop 2) with
          | .error e => .error e
          | .ok s3 =>
            match
              (match tzDigits s3 with
               | .ok (m1, m2) =>
                 if (48 ≤ m1 ∧ m1 ≤ 53) ∧ isAsciiDigit m2 = true then
                   .ok ((((m1 - 48) * 10 + (m2 - 48) : Nat) : Int))
                 else if (54 ≤ m1 ∧ m1 ≤ 57) ∧ isAsciiDigit m2 = true then
                   .error .OutOfRange
                 else .error .Invalid
               | .error _ =>
                 if allow_missing_minutes then .ok 0
                 else .error .TooShort : ParseResult Int) with
            | .error e => .error e
            | .ok minutes =>
              match
                (if 2 ≤ s3.length then .ok (s3.drop 2)
                 else if s3.length = 0 then .ok s3
                 else .error .TooShort : ParseResult (List Nat)) with
              | .error e => .error e
              | .ok s4 =>
                .ok (s4, if c = 45 then
                  -((((h1 - 48) * 10 + (h2 - 48) : Nat) : Int) * 3600 + minutes * 60)
                else
                  (((h1 - 48) * 10 + (h2 - 48) : Nat) : Int) * 3600 + minutes * 60)
        else .error .Invalid
    else .error .Invalid

/-- `timezone_offset(s, consume_colon)`: the strict entry point. -/
def timezone_offset (s : List Nat)
    (consume_colon : List Nat → ParseResult (List Nat)) : ParseResult (List Nat × Int) :=
  timezone_offset_internal s consume_colon false

/-- `timezone_offset_zulu(s, colon)`: `z`/`Z` and case-insensitive `utc`
shortcuts, otherwise the strict numeric parser. -/
def timezone_offset_zulu (s : List Nat)
    (colon : List Nat → ParseResult (List Nat)) : ParseResult (List Nat × Int) :=
  match s with
  | 122 :: rest => .ok (rest, 0)
  | 90 :: rest => .ok (rest, 0)
  | 117 :: b :: c :: rest =>
    if (b ||| 32) = 116 ∧ (c ||| 32) = 99 then .ok (rest, 0) else .error .Invalid
  | 85 :: b :: c :: rest =>
    if (b ||| 32) = 116 ∧ (c ||| 32) = 99 then .ok (rest, 0) else .error .Invalid
  | 117 :: _ => .error .Invalid
  | 85 :: _ => .error .Invalid
  | _ => timezone_offset s colon

/-- `timezone_offset_permissive(s, colon)`: only the `z`/`Z` shortcut,
otherwise the numeric parser with missing-minutes tolerance. -/
def timezone_offset_permissive (s : List Nat)
    (colon : List Nat → ParseResult (List Nat)) : ParseResult (List Nat × Int) :=
  match s with
  | 122 :: rest => .ok (rest, 0)
  | 90 :: rest => .ok (rest, 0)
  | _ => timezone_offset_internal s colon true

/-- `timezone_offset_2822(s)`: RFC 2822 legacy names, military single
letters, or the numeric parser with no separator. -/
def timezone_offset_2822 (s : List Nat) : ParseResult (List Nat × Option Int) :=
  if 0 < (s.takeWhile isAsciiAlpha).length then
    if equals (s.take (s.takeWhile isAsciiAlpha).length) (bytesOfAscii "gmt") = true ∨
        equals (s.take (s.takeWhile isAsciiAlpha).length) (bytesOfAscii "ut") = true then
      .ok (s.drop (s.takeWhile isAsciiAlpha).length, some (0 * 3600))
    else if equals (s.take (s.takeWhile isAsciiAlpha).length) (bytesOfAscii "edt") = true then
      .ok (s.drop (s.takeWhile isAsciiAlpha).length, some (-4 * 3600))
    else if equals (s.take (s.takeWhile isAsciiAlpha).length) (bytesOfAscii "est") = true ∨
        equals (s.take (s.takeWhile isAsciiAlpha).length) (bytesOfAscii "cdt") = true then
      .ok (s.drop (s.takeWhile isAsciiAlpha).length, some (-5 * 3600))
    else if equals (s.take (s.takeWhile isAsciiAlpha).length) (bytesOfAscii "cst") = true ∨
        equals (s.take (s.takeWhile isAsciiAlpha).length) (bytesOfAscii "mdt") = true then
      .ok (s.drop (s.takeWhile isAsciiAlpha).length, some (-6 * 3600))
    else if equals (s.take (s.takeWhile isAsciiAlpha).length) (bytesOfAscii "mst") = true ∨
        equals (s.take (s.takeWhile isAsciiAlpha).length) (bytesOfAscii "pdt") = true then
      .ok (s.drop (s.takeWhile isAsciiAlpha).length, some (-7 * 3600))
    else if equals (s.take (s.takeWhile isAsciiAlpha).length) (bytesOfAscii "pst") = true then
      .ok (s.drop (s.takeWhile isAsciiAlpha).length, some (-8 * 3600))
    else if (s.take (s.takeWhile isAsciiAlpha).length).length = 1 then
      match s.take (s.takeWhile isAsciiAlpha).length with
      | [c] =>
        if (97 ≤ c ∧ c ≤ 105) ∨ (107 ≤ c ∧ c ≤ 122) ∨
            (65 ≤ c ∧ c ≤ 73) ∨ (75 ≤ c ∧ c ≤ 90) then
          .ok (s.drop (s.takeWhile isAsciiAlpha).length, some (0 * 3600))
        else
          .ok (s.drop (s.takeWhile isAsciiAlpha).length, none)
      | _ => .ok (s.drop (s.takeWhile isAsciiAlpha).length, none)
    else
      .ok (s.drop (s.takeWhile isAsciiAlpha).length, none)
  else
    match timezone_offset s (fun t => .ok t) with
    | .error e => .error e
    | .ok (s1, offset) => .ok (s1, some offset)

/-- C5: after the sign, two hour digits and the separator, the minutes field
of the numeric offset parser is classified as: two digits with tens digit
0–5 are accepted as minutes 00–59; tens digit 6–9 fails `OutOfRange`; any
other two-byte pattern fails `Invalid`; fewer than two remaining bytes fail
`TooShort` when minutes are mandatory; and on success the value is the
signed total offset `±(hours * 3600 + minutes * 60)` in seconds. -/
theorem c5_timezone_offset_minutes
    (colon : List Nat → ParseResult (List Nat))
    (sgn h1 h2 : Nat) (rest rest' : List Nat)
    (hs : sgn = 43 ∨ sgn = 45)
    (hh1 : isAsciiDigit h1 = true) (hh2 : isAsciiDigit h2 = true)
    (hcolon : colon rest = .ok rest') :
    (∀ (allowM : Bool) (m1 m2 : Nat) (tail : List Nat), rest' = m1 :: m2 :: tail →
      48 ≤ m1 → m1 ≤ 53 → isAsciiDigit m2 = true →
      timezone_offset_internal (sgn :: h1 :: h2 :: rest) colon allowM =
        .ok (tail,
          if sgn = 45 then
            -((((h1 - 48) * 10 + (h2 - 48) : Nat) : Int) * 3600 +
              (((m1 - 48) * 10 + (m2 - 48) : Nat) : Int) * 60)
          else
            (((h1 - 48) * 10 + (h2 - 48) : Nat) : Int) * 3600 +
              (((m1 - 48) * 10 + (m2 - 48) : Nat) : Int) * 60))
    ∧ (∀ (allowM : Bool) (m1 m2 : Nat) (tail : List Nat), rest' = m1 :: m2 :: tail →
      54 ≤ m1 → m1 ≤ 57 → isAsciiDigit m2 = true →
      timezone_offset_internal (sgn :: h1 :: h2 :: rest) colon allowM =
        .error .OutOfRange)
    ∧ (∀ (allowM : Bool) (m1 m2 : Nat) (tail : List Nat), rest' = m1 :: m2 :: tail →
      ¬(isAsciiDigit m1 = true ∧ isAsciiDigit m2 = true) →
      timezone_offset_internal (sgn :: h1 :: h2 :: rest) colon allowM =
        .error .Invalid)
    ∧ (rest'.length < 2 →
      timezone_offset (sgn :: h1 :: h2 :: rest) colon = .error .TooShort) := by
  have hdrop : (h1 :: h2 :: rest).drop 2 = rest := rfl
  refine ⟨?_, ?_, ?_, ?_⟩
  · intro allowM m1 m2 tail hrest hm1a hm1b hm2
    subst hrest
    simp only [timezone_offset_internal, if_pos hs, tzDigits,
      if_pos (And.intro hh1 hh2)]
    rw [hdrop, hcolon]
    dsimp only
    rw [if_pos (show (48 ≤ m1 ∧ m1 ≤ 53) ∧ isAsciiDigit m2 = true from
      ⟨⟨hm1a, hm1b⟩, hm2⟩)]
    dsimp only
    rw [if_pos (by simp : 2 ≤ (m1 :: m2 :: tail).length)]
    rfl
  · intro allowM m1 m2 tail hrest hm1a hm1b hm2
    subst hrest
    simp only [timezone_offset_internal, if_pos hs, tzDigits,
      if_pos (And.intro hh1 hh2)]
    rw [hdrop, hcolon]
    dsimp only
    rw [if_neg (by rintro ⟨⟨-, h53⟩, -⟩; omega),
      if_pos (show (54 ≤ m1 ∧ m1 ≤ 57) ∧ isAsciiDigit m2 = true from
        ⟨⟨hm1a, hm1b⟩, hm2⟩)]
  · intro allowM m1 m2 tail hrest hm12
    subst hrest
    simp only [timezone_offset_internal, if_pos hs, tzDigits,
      if_pos (And.intro hh1 hh2)]
    rw [hdrop, hcolon]
    dsimp only
    rw [if_neg (by
        rintro ⟨⟨ha, hb⟩, hc⟩
        exact hm12 ⟨isAsciiDigit_iff.mpr ⟨ha, by omega⟩, hc⟩),
      if_neg (by
        rintro ⟨⟨ha, hb⟩, hc⟩
        exact hm12 ⟨isAsciiDigit_iff.mpr ⟨by omega, by omega⟩, hc⟩)]
  · intro hlen
    simp only [timezone_offset, timezone_offset_internal, if_pos hs, tzDigits,
      if_pos (And.intro hh1 hh2)]
    rw [hdrop, hcolon]
    dsimp only
    match rest', hlen with
    | [], _ => rfl
    | [x], _ => rfl

theorem c5_timezone_offset_witness :
    timezone_offset_internal (bytesOfAscii "+12:34") consume_colon_maybe false =
      .ok ([], 45240) ∧
    timezone_offset (bytesOfAscii "-07:5") consume_colon_maybe = .error .TooShort := by
  constructor
  · have h := (c5_timezone_offset_minutes consume_colon_maybe 43 49 50
      (bytesOfAscii ":34") (bytesOfAscii "34") (Or.inl rfl) (by decide) (by decide)
      (by decide)).1 false 51 52 [] rfl (by decide) (by decide) (by decide)
    rw [show bytesOfAscii "+12:34" = 43 :: 49 :: 50 :: bytesOfAscii ":34" from rfl, h]
    decide
  · exact (c5_timezone_offset_minutes consume_colon_maybe 45 48 55
      (bytesOfAscii ":5") (bytesOfAscii "5") (Or.inr rfl) (by decide) (by decide)
      (by decide)).2.2.2 (by decide)

/-- C1 counterexample: the claim says `timezone_offset_permissive` accepts
case-insensitive `utc` (three bytes, offset 0) like `timezone_offset_zulu`;
on input `"utc"` the permissive parser instead delegates to the numeric
parser and fails `Invalid`, while the Zulu parser does return
`Ok(("", 0))`. -/
theorem c1_permissive_counterexample :
    timezone_offset_permissive (bytesOfAscii "utc") (fun t => .ok t) = .error .Invalid ∧
    timezone_offset_permissive (bytesOfAscii "utc") (fun t => .ok t) ≠ .ok ([], 0) ∧
    timezone_offset_zulu (bytesOfAscii "utc") (fun t => .ok t) = .ok ([], 0) := by
  decide

/-- C1 (amended): `timezone_offset_permissive` recognizes only the one-byte
`z`/`Z` shortcut (consuming one byte and returning offset 0); every other
input — including one beginning with case-insensitive `utc`, which
`timezone_offset_zulu` accepts — delegates to the numeric offset parser
with missing-minutes tolerance enabled. -/
theorem c1_permissive_amended :
    (∀ (rest : List Nat) (colon : List Nat → ParseResult (List Nat)),
      timezone_offset_permissive (122 :: rest) colon = .ok (rest, 0) ∧
      timezone_offset_permissive (90 :: rest) colon = .ok (rest, 0))
    ∧ (∀ (c : Nat) (t : List Nat) (colon : List Nat → ParseResult (List Nat)),
      c ≠ 122 → c ≠ 90 →
      timezone_offset_permissive (c :: t) colon =
        timezone_offset_internal (c :: t) colon true)
    ∧ (∀ (colon : List Nat → ParseResult (List Nat)),
      timezone_offset_permissive [] colon = timezone_offset_internal [] colon true)
    ∧ timezone_offset_permissive (bytesOfAscii "utc") (fun t => .ok t) =
        .error .Invalid := by
  refine ⟨fun rest colon => ⟨rfl, rfl⟩, ?_, fun colon => rfl, by decide⟩
  intro c t colon h1 h2
  simp only [timezone_offset_permissive]
  split
  · rename_i heq
    exact absurd (List.head_eq_of_cons_eq heq) h1
  · rename_i heq
    exact absurd (List.head_eq_of_cons_eq heq) h2
  · rfl

theorem c1_permissive_witness :
    timezone_offset_permissive (bytesOfAscii "+0500") (fun t => .ok t) =
      timezone_offset_internal (bytesOfAscii "+0500") (fun t => .ok t) true := by
  exact c1_permissive_amended.2.1 43 (bytesOfAscii "0500") (fun t => .ok t)
    (by decide) (by decide)

lemma equals_iff : ∀ (s p : List Nat), equals s p = true ↔ s.map lowerByte = p := by
  intro s
  induction s with
  | nil =>
    intro p
    cases p with
    | nil => simp [equals]
    | cons y ys => simp [equals]
  | cons x xs ih =>
    intro p
    cases p with
    | nil => simp [equals]
    | cons y ys =>
      simp only [equals, List.map_cons]
      by_cases h : lowerByte x = y
      · rw [if_neg (by simp [h]), ih ys]
        simp [List.cons.injEq, h]
      · rw [if_pos h]
        simp [List.cons.injEq, h]

lemma equals_length {s p : List Nat} (h : equals s p = true) : s.length = p.length := by
  have hm := (equals_iff s p).mp h
  rw [← hm]
  simp

lemma equals_false_of_ne {s p q : List Nat} (h : equals s p = true) (hpq : p ≠ q) :
    equals s q = false := by
  cases hq : equals s q
  · rfl
  · exact absurd (((equals_iff s p).mp h).symm.trans ((equals_iff s q).mp hq)) hpq

lemma equals_false_of_length_ne {s p : List Nat} (h : s.length ≠ p.length) :
    equals s p = false := by
  cases hq : equals s p
  · rfl
  · exact absurd (equals_length hq) h

lemma take_length_takeWhile (p : Nat → Bool) : ∀ s : List Nat,
    s.take (s.takeWhile p).length = s.takeWhile p := by
  intro s
  induction s with
  | nil => simp
  | cons a s ih =>
    rw [List.takeWhile_cons]
    by_cases h : p a
    · simp only [h, if_true, List.length_cons, List.take_succ_cons, ih]
    · simp [h]

lemma run_pos_of_equals {s p : List Nat}
    (h : equals (s.takeWhile isAsciiAlpha) p = true) (hp : 0 < p.length) :
    0 < (s.takeWhile isAsciiAlpha).length := by
  rw [equals_length h]
  exact hp

/-- C2: `timezone_offset_2822` on a non-empty maximal leading alphabetic run
returns the table offset for known names (gmt/ut 0; edt −4h; est/cdt −5h;
cst/mdt −6h; mst/pdt −7h; pst −8h), `Some 0` for a single military letter
a–i/k–z of either case, `None` for `j`/`J` or an unrecognized multi-letter
name, and on an empty run delegates to the strict numeric parser with no
separator, wrapping the result in `Some`; the spec's three concrete
examples hold. -/
theorem c2_timezone_offset_2822_table :
    (∀ s : List Nat,
      equals (s.takeWhile isAsciiAlpha) (bytesOfAscii "gmt") = true ∨
      equals (s.takeWhile isAsciiAlpha) (bytesOfAscii "ut") = true →
      timezone_offset_2822 s = .ok (s.drop (s.takeWhile isAsciiAlpha).length, some 0))
    ∧ (∀ s : List Nat,
      equals (s.takeWhile isAsciiAlpha) (bytesOfAscii "edt") = true →
      timezone_offset_2822 s =
        .ok (s.drop (s.takeWhile isAsciiAlpha).length, some (-14400)))
    ∧ (∀ s : List Nat,
      equals (s.takeWhile isAsciiAlpha) (bytesOfAscii "est") = true ∨
      equals (s.takeWhile isAsciiAlpha) (bytesOfAscii "cdt") = true →
      timezone_offset_2822 s =
        .ok (s.drop (s.takeWhile isAsciiAlpha).length, some (-18000)))
    ∧ (∀ s : List Nat,
      equals (s.takeWhile isAsciiAlpha) (bytesOfAscii "cst") = true ∨
      equals (s.takeWhile isAsciiAlpha) (bytesOfAscii "mdt") = true →
      timezone_offset_2822 s =
        .ok (s.drop (s.takeWhile isAsciiAlpha).length, some (-21600)))
    ∧ (∀ s : List Nat,
      equals (s.takeWhile isAsciiAlpha) (bytesOfAscii "mst") = true ∨
      equals (s.takeWhile isAsciiAlpha) (bytesOfAscii "pdt") = true →
      timezone_offset_2822 s =
        .ok (s.drop (s.takeWhile isAsciiAlpha).length, some (-25200)))
    ∧ (∀ s : List Nat,
      equals (s.takeWhile isAsciiAlpha) (bytesOfAscii "pst") = true →
      timezone_offset_2822 s =
        .ok (s.drop (s.takeWhile isAsciiAlpha).length, some (-28800)))
    ∧ (∀ (s : List Nat) (c : Nat), s.takeWhile isAsciiAlpha = [c] →
      (97 ≤ c ∧ c ≤ 105) ∨ (107 ≤ c ∧ c ≤ 122) ∨
        (65 ≤ c ∧ c ≤ 73) ∨ (75 ≤ c ∧ c ≤ 90) →
      timezone_offset_2822 s = .ok (s.drop 1, some 0))
    ∧ (∀ s : List Nat,
      s.takeWhile isAsciiAlpha = [106] ∨ s.takeWhile isAsciiAlpha = [74] →
      timezone_offset_2822 s = .ok (s.drop 1, none))
    ∧ (∀ s : List Nat, 2 ≤ (s.takeWhile isAsciiAlpha).length →
      equals (s.takeWhile isAsciiAlpha) (bytesOfAscii "gmt") = false →
      equals (s.takeWhile isAsciiAlpha) (bytesOfAscii "ut") = false →
      equals (s.takeWhile isAsciiAlpha) (bytesOfAscii "edt") = false →
      equals (s.takeWhile isAsciiAlpha) (bytesOfAscii "est") = false →
      equals (s.takeWhile isAsciiAlpha) (bytesOfAscii "cdt") = false →
      equals (s.takeWhile isAsciiAlpha) (bytesOfAscii "cst") = false →
      equals (s.takeWhile isAsciiAlpha) (bytesOfAscii "mdt") = false →
      equals (s.takeWhile isAsciiAlpha) (bytesOfAscii "mst") = false →
      equals (s.takeWhile isAsciiAlpha) (bytesOfAscii "pdt") = false →
      equals (s.takeWhile isAsciiAlpha) (bytesOfAscii "pst") = false →
      timezone_offset_2822 s = .ok (s.drop (s.takeWhile isAsciiAlpha).length, none))
    ∧ (∀ (s r : List Nat) (off : Int), s.takeWhile isAsciiAlpha = [] →
      timezone_offset s (fun t => .ok t) = .ok (r, off) →
      timezone_offset_2822 s = .ok (r, some off))
    ∧ (∀ (s : List Nat) (e : ParseError), s.takeWhile isAsciiAlpha = [] →
      timezone_offset s (fun t => .ok t) = .error e →
      timezone_offset_2822 s = .error e)
    ∧ timezone_offset_2822 (bytesOfAscii "cSt") = .ok ([], some (-21600))
    ∧ timezone_offset_2822 (bytesOfAscii "Gp") = .ok ([], none)
    ∧ timezone_offset_2822 (bytesOfAscii "-1551") = .ok ([], some (-57060)) := by
  refine ⟨?_, ?_, ?_, ?_, ?_, ?_, ?_, ?_, ?_, ?_, ?_, by decide, by decide, by decide⟩
  · intro s h
    have hlen : 0 < (s.takeWhile isAsciiAlpha).length := by
      rcases h with h | h
      · exact run_pos_of_equals h (by decide)
      · exact run_pos_of_equals h (by decide)
    simp only [timezone_offset_2822, take_length_takeWhile]
    rw [if_pos hlen, if_pos h]
    norm_num
  · intro s h
    have hgmt := equals_false_of_ne h (show bytesOfAscii "edt" ≠ bytesOfAscii "gmt" by decide)
    have hut := equals_false_of_ne h (show bytesOfAscii "edt" ≠ bytesOfAscii "ut" by decide)
    have hlen : 0 < (s.takeWhile isAsciiAlpha).length := run_pos_of_equals h (by decide)
    simp only [timezone_offset_2822, take_length_takeWhile]
    rw [if_pos hlen, if_neg (by simp [hgmt, hut]), if_pos h]
    norm_num
  · intro s h
    have hgmt : equals (s.takeWhile isAsciiAlpha) (bytesOfAscii "gmt") = false := by
      rcases h with h | h <;> exact equals_false_of_ne h (by decide)
    have hut : equals (s.takeWhile isAsciiAlpha) (bytesOfAscii "ut") = false := by
      rcases h with h | h <;> exact equals_false_of_ne h (by decide)
    have hedt : equals (s.takeWhile isAsciiAlpha) (bytesOfAscii "edt") = false := by
      rcases h with h | h <;> exact equals_false_of_ne h (by decide)
    have hlen : 0 < (s.takeWhile isAsciiAlpha).length := by
      rcases h with h | h <;> exact run_pos_of_equals h (by decide)
    simp only [timezone_offset_2822, take_length_takeWhile]
    rw [if_pos hlen, if_neg (by simp [hgmt, hut]), if_neg (by simp [hedt]), if_pos h]
    norm_num
  · intro s h
    have hgmt : equals (s.takeWhile isAsciiAlpha) (bytesOfAscii "gmt") = false := by
      rcases h with h | h <;> exact equals_false_of_ne h (by decide)
    have hut : equals (s.takeWhile isAsciiAlpha) (bytesOfAscii "ut") = false := by
      rcases h with h | h <;> exact equals_false_of_ne h (by decide)
    have hedt : equals (s.takeWhile isAsciiAlpha) (bytesOfAscii "edt") = false := by
      rcases h with h | h <;> exact equals_false_of_ne h (by decide)
    have hest : equals (s.takeWhile isAsciiAlpha) (bytesOfAscii "est") = false := by
      rcases h with h | h <;> exact equals_false_of_ne h (by decide)
    have hcdt : equals (s.takeWhile isAsciiAlpha) (bytesOfAscii "cdt") = false := by
      rcases h with h | h <;> exact equals_false_of_ne h (by decide)
    have hlen : 0 < (s.takeWhile isAsciiAlpha).length := by
      rcases h with h | h <;> exact run_pos_of_equals h (by decide)
    simp only [timezone_offset_2822, take_length_takeWhile]
    rw [if_pos hlen, if_neg (by simp [hgmt, hut]), if_neg (by simp [hedt]),
      if_neg (by simp [hest, hcdt]), if_pos h]
    norm_num
  · intro s h
    have hgmt : equals (s.takeWhile isAsciiAlpha) (bytesOfAscii "gmt") = false := by
      rcases h with h | h <;> exact equals_false_of_ne h (by decide)
    have hut : equals (s.takeWhile isAsciiAlpha) (bytesOfAscii "ut") = false := by
      rcases h with h | h <;> exact equals_false_of_ne h (by decide)
    have hedt : equals (s.takeWhile isAsciiAlpha) (bytesOfAscii "edt") = false := by
      rcases h with h | h <;> exact equals_false_of_ne h (by decide)
    have hest : equals (s.takeWhile isAsciiAlpha) (bytesOfAscii "est") = false := by
      rcases h with h | h <;> exact equals_false_of_ne h (by decide)
    have hcdt : equals (s.takeWhile isAsciiAlpha) (bytesOfAscii "cdt") = false := by
      rcases h with h | h <;> exact equals_false_of_ne h (by decide)
    have hcst : equals (s.takeWhile isAsciiAlpha) (bytesOfAscii "cst") = false := by
      rcases h with h | h <;> exact equals_false_of_ne h (by decide)
    have hmdt : equals (s.takeWhile isAsciiAlpha) (bytesOfAscii "mdt") = false := by
      rcases h with h | h <;> exact equals_false_of_ne h (by decide)
    have hlen : 0 < (s.takeWhile isAsciiAlpha).length := by
      rcases h with h | h <;> exact run_pos_of_equals h (by decide)
    simp only [timezone_offset_2822, take_length_takeWhile]
    rw [if_pos hlen, if_neg (by simp [hgmt, hut]), if_neg (by simp [hedt]),
      if_neg (by simp [hest, hcdt]), if_neg (by simp [hcst, hmdt]), if_pos h]
    norm_num
  · intro s h
    have hgmt := equals_false_of_ne h (show bytesOfAscii "pst" ≠ bytesOfAscii "gmt" by decide)
    have hut := equals_false_of_ne h (show bytesOfAscii "pst" ≠ bytesOfAscii "ut" by decide)
    have hedt := equals_false_of_ne h (show bytesOfAscii "pst" ≠ bytesOfAscii "edt" by decide)
    have hest := equals_false_of_ne h (show bytesOfAscii "pst" ≠ bytesOfAscii "est" by decide)
    have hcdt := equals_false_of_ne h (show bytesOfAscii "pst" ≠ bytesOfAscii "cdt" by decide)
    have hcst := equals_false_of_ne h (show bytesOfAscii "pst" ≠ bytesOfAscii "cst" by decide)
    have hmdt := equals_false_of_ne h (show bytesOfAscii "pst" ≠ bytesOfAscii "mdt" by decide)
    have hmst := equals_false_of_ne h (show bytesOfAscii "pst" ≠ bytesOfAscii "mst" by decide)
    have hpdt := equals_false_of_ne h (show bytesOfAscii "pst" ≠ bytesOfAscii "pdt" by decide)
    have hlen : 0 < (s.takeWhile isAsciiAlpha).length := run_pos_of_equals h (by decide)
    simp only [timezone_offset_2822, take_length_takeWhile]
    rw [if_pos hlen, if_neg (by simp [hgmt, hut]), if_neg (by simp [hedt]),
      if_neg (by simp [hest, hcdt]), if_neg (by simp [hcst, hmdt]),
      if_neg (by simp [hmst, hpdt]), if_pos h]
    norm_num
  · intro s c hrun hc
    have hlen1 : (s.takeWhile isAsciiAlpha).length = 1 := by rw [hrun]; rfl
    have hgmt : equals (s.takeWhile isAsciiAlpha) (bytesOfAscii "gmt") = false :=
      equals_false_of_length_ne (by rw [hlen1]; decide)
    have hut : equals (s.takeWhile isAsciiAlpha) (bytesOfAscii "ut") = false :=
      equals_false_of_length_ne (by rw [hlen1]; decide)
    have hedt : equals (s.takeWhile isAsciiAlpha) (bytesOfAscii "edt") = false :=
      equals_false_of_length_ne (by rw [hlen1]; decide)
    have hest : equals (s.takeWhile isAsciiAlpha) (bytesOfAscii "est") = false :=
      equals_false_of_length_ne (by rw [hlen1]; decide)
    have hcdt : equals (s.takeWhile isAsciiAlpha) (bytesOfAscii "cdt") = false :=
      equals_false_of_length_ne (by rw [hlen1]; decide)
    have hcst : equals (s.takeWhile isAsciiAlpha) (bytesOfAscii "cst") = false :=
      equals_false_of_length_ne (by rw [hlen1]; decide)
    have hmdt : equals (s.takeWhile isAsciiAlpha) (bytesOfAscii "mdt") = false :=
      equals_false_of_length_ne (by rw [hlen1]; decide)
    have hmst : equals (s.takeWhile isAsciiAlpha) (bytesOfAscii "mst") = false :=
      equals_false_of_length_ne (by rw [hlen1]; decide)
    have hpdt : equals (s.takeWhile isAsciiAlpha) (bytesOfAscii "pdt") = false :=
      equals_false_of_length_ne (by rw [hlen1]; decide)
    have hpst : equals (s.takeWhile isAsciiAlpha) (bytesOfAscii "pst") = false :=
      equals_false_of_length_ne (by rw [hlen1]; decide)
    simp only [timezone_offset_2822, take_length_takeWhile]
    rw [if_pos (by omega), if_neg (by simp [hgmt, hut]), if_neg (by simp [hedt]),
      if_neg (by simp [hest, hcdt]), if_neg (by simp [hcst, hmdt]),
      if_neg (by simp [hmst, hpdt]), if_neg (by simp [hpst]), if_pos hlen1, hrun]
    dsimp only
    rw [if_pos hc]
    simp
  · intro s hrun
    have hlen1 : (s.takeWhile isAsciiAlpha).length = 1 := by
      rcases hrun with hrun | hrun <;> rw [hrun] <;> rfl
    have hgmt : equals (s.takeWhile isAsciiAlpha) (bytesOfAscii "gmt") = false :=
      equals_false_of_length_ne (by rw [hlen1]; decide)
    have hut : equals (s.takeWhile isAsciiAlpha) (bytesOfAscii "ut") = false :=
      equals_false_of_length_ne (by rw [hlen1]; decide)
    have hedt : equals (s.takeWhile isAsciiAlpha) (bytesOfAscii "edt") = false :=
      equals_false_of_length_ne (by rw [hlen1]; decide)
    have hest : equals (s.takeWhile isAsciiAlpha) (bytesOfAscii "est") = false :=
      equals_false_of_length_ne (by rw [hlen1]; decide)
    have hcdt : equals (s.takeWhile isAsciiAlpha) (bytesOfAscii "cdt") = false :=
      equals_false_of_length_ne (by rw [hlen1]; decide)
    have hcst : equals (s.takeWhile isAsciiAlpha) (bytesOfAscii "cst") = false :=
      equals_false_of_length_ne (by rw [hlen1]; decide)
    have hmdt : equals (s.takeWhile isAsciiAlpha) (bytesOfAscii "mdt") = false :=
      equals_false_of_length_ne (by rw [hlen1]; decide)
    have hmst : equals (s.takeWhile isAsciiAlpha) (bytesOfAscii "mst") = false :=
      equals_false_of_length_ne (by rw [hlen1]; decide)
    have hpdt : equals (s.takeWhile isAsciiAlpha) (bytesOfAscii "pdt") = false :=
      equals_false_of_length_ne (by rw [hlen1]; decide)
    have hpst : equals (s.takeWhile isAsciiAlpha) (bytesOfAscii "pst") = false :=
      equals_false_of_length_ne (by rw [hlen1]; decide)
    simp only [timezone_offset_2822, take_length_takeWhile]
    rcases hrun with hrun | hrun <;>
      rw [if_pos (by omega), if_neg (by simp [hgmt, hut]), if_neg (by simp [hedt]),
        if_neg (by simp [hest, hcdt]), if_neg (by simp [hcst, hmdt]),
        if_neg (by simp [hmst, hpdt]), if_neg (by simp [hpst]), if_pos hlen1, hrun] <;>
      dsimp only <;>
      rw [if_neg (by decide)] <;>
      simp
  · intro s h2 hgmt hut hedt hest hcdt hcst hmdt hmst hpdt hpst
    simp only [timezone_offset_2822, take_length_takeWhile]
    rw [if_pos (by omega), if_neg (by simp [hgmt, hut]), if_neg (by simp [hedt]),
      if_neg (by simp [hest, hcdt]), if_neg (by simp [hcst, hmdt]),
      if_neg (by simp [hmst, hpdt]), if_neg (by simp [hpst]),
      if_neg (by omega)]
  · intro s r off hrun hok
    simp only [timezone_offset_2822]
    rw [if_neg (by rw [hrun]; simp), hok]
  · intro s e hrun herr
    simp only [timezone_offset_2822]
    rw [if_neg (by rw [hrun]; simp), herr]

theorem c2_timezone_offset_2822_witness :
    timezone_offset_2822 (bytesOfAscii "pDt") = .ok ([], some (-25200)) := by
  have h := c2_timezone_offset_2822_table.2.2.2.2.1 (bytesOfAscii "pDt")
    (Or.inr (by decide))
  rw [h]
  decide

/-- The three states of the RFC 2822 comment machine. -/
inductive CommentState where
  | Start
  | Next (depth : Nat)
  | Escape (depth : Nat)
  deriving DecidableEq, Repr

/-- The byte loop of `comment_2822`, with the source's transitions in the
source's order: `(Start, '(') → Next 1`; `(Next 1, ')')` returns the rest;
`(Next d, '\\') → Escape d`; `(Next d, '(') → Next (d+1)`;
`(Next d, ')') → Next (d-1)`; any other byte keeps the state's depth, an
escape consuming it unconditionally; a non-`(` in `Start` is `Invalid`;
exhausting the input is `TooShort`. -/
def comment_scan : CommentState → List Nat → ParseResult (List Nat × Unit)
  | _, [] => .error .TooShort
  | .Start, c :: rest =>
    if c = 40 then comment_scan (.Next 1) rest else .error .Invalid
  | .Next d, c :: rest =>
    if d = 1 ∧ c = 41 then .ok (rest, ())
    else if c = 92 then comment_scan (.Escape d) rest
    else if c = 40 then comment_scan (.Next (d + 1)) rest
    else if c = 41 then comment_scan (.Next (d - 1)) rest
    else comment_scan (.Next d) rest
  | .Escape d, _ :: rest => comment_scan (.Next d) rest

/-- `comment_2822(s)`: leading whitespace, then one full (possibly nested,
possibly escaped) parenthesized comment. -/
def comment_2822 (s : List Nat) : ParseResult (List Nat × Unit) :=
  comment_scan .Start (trimLeft s)

/-- C4: the nested and escaped comments of the spec succeed and return the
text right after the matching top-level `)`; the unterminated comment and
the dangling escape fail `TooShort`; a first non-whitespace byte other than
`(` fails `Invalid`; and the escape state consumes exactly one byte
unconditionally, returning to the same depth. -/
theorem c4_comment_2822_behaviour :
    comment_2822 (bytesOfAscii "(())") = .ok ([], ())
    ∧ comment_2822 (bytesOfAscii "((()))") = .ok ([], ())
    ∧ comment_2822 (bytesOfAscii "(\\()") = .ok ([], ())
    ∧ comment_2822 (bytesOfAscii "(\\))") = .ok ([], ())
    ∧ comment_2822 (bytesOfAscii " \t(())tail") = .ok (bytesOfAscii "tail", ())
    ∧ comment_2822 (bytesOfAscii "(") = .error .TooShort
    ∧ comment_2822 (bytesOfAscii "(\\)") = .error .TooShort
    ∧ comment_2822 (bytesOfAscii "x") = .error .Invalid
    ∧ (∀ (s : List Nat) (c : Nat) (rest : List Nat),
      trimLeft s = c :: rest → c ≠ 40 → comment_2822 s = .error .Invalid)
    ∧ (∀ (d c : Nat) (rest : List Nat),
      comment_scan (.Escape d) (c :: rest) = comment_scan (.Next d) rest) := by
  refine ⟨by decide, by decide, by decide, by decide, by decide, by decide, by decide,
    by decide, ?_, fun d c rest => rfl⟩
  intro s c rest htrim hc
  simp only [comment_2822, htrim, comment_scan]
  rw [if_neg hc]

theorem c4_comment_witness :
    comment_2822 (bytesOfAscii "y(") = .error .Invalid ∧
    comment_scan (.Escape 3) (41 :: bytesOfAscii ")") =
      comment_scan (.Next 3) (bytesOfAscii ")") := by
  constructor
  · exact c4_comment_2822_behaviour.2.2.2.2.2.2.2.2.1 (bytesOfAscii "y(") 121
      (bytesOfAscii "(") (by decide) (by decide)
  · exact c4_comment_2822_behaviour.2.2.2.2.2.2.2.2.2 3 41 (bytesOfAscii ")")

lemma trimLeftMatchesGo_suffix (p : Nat → Bool) : ∀ (n : Nat) (s : List Nat),
    (trimLeftMatchesGo p n s).IsSuffix s := by
  intro n
  induction n with
  | zero => intro s; exact List.suffix_refl s
  | succ m ih =>
    intro s
    cases s with
    | nil => rw [trimLeftMatchesGo_nil]
    | cons b t =>
      simp only [trimLeftMatchesGo]
      cases hdec : utf8DecodeFirst (b :: t) with
      | none => exact List.suffix_refl _
      | some x =>
        obtain ⟨cp, rest⟩ := x
        have hs := (utf8DecodeFirst_result (b :: t) cp rest hdec).1
        by_cases hp : p cp
        · simp only [hp, if_true]
          exact (ih rest).trans hs
        · simp only [hp]
          exact List.suffix_refl _

lemma trimLeftMatches_suffix (p : Nat → Bool) (s : List Nat) :
    (trimLeftMatches p s).IsSuffix s :=
  trimLeftMatchesGo_suffix p s.length s

lemma s_next_suffix (s : List Nat) : (s_next s).IsSuffix s := by
  simp only [s_next]
  cases hdec : utf8DecodeFirst s with
  | none => exact List.nil_suffix
  | some x =>
    obtain ⟨cp, rest⟩ := x
    exact (utf8DecodeFirst_result s cp rest hdec).1

lemma number_suffix (s : List Nat) (mn mx : Nat) (r : List Nat) (v : Int)
    (h : number s mn mx = .ok (r, v)) : r.IsSuffix s := by
  simp only [number] at h
  split at h
  · exact absurd h (by simp)
  · split at h
    · exact absurd h (by simp)
    · rename_i i n hgo
      obtain ⟨h1, h2⟩ := Prod.mk.inj (Except.ok.inj h)
      rw [← h1]
      exact List.drop_suffix i s

lemma comment_scan_suffix : ∀ (s : List Nat) (st : CommentState) (r : List Nat),
    comment_scan st s = .ok (r, ()) → r.IsSuffix s := by
  intro s
  induction s with
  | nil =>
    intro st r h
    cases st <;> exact absurd h (by simp [comment_scan])
  | cons c rest ih =>
    intro st r h
    have htail : rest.IsSuffix (c :: rest) := ⟨[c], rfl⟩
    cases st with
    | Start =>
      simp only [comment_scan] at h
      split at h
      · exact ((ih _ r h).trans htail)
      · exact absurd h (by simp)
    | Next d =>
      simp only [comment_scan] at h
      split at h
      · obtain ⟨h1, h2⟩ := Prod.mk.inj (Except.ok.inj h)
        rw [← h1]
        exact htail
      · split at h
        · exact ((ih _ r h).trans htail)
        · split at h
          · exact ((ih _ r h).trans htail)
          · split at h
            · exact ((ih _ r h).trans htail)
            · exact ((ih _ r h).trans htail)
    | Escape d =>
      simp only [comment_scan] at h
      exact ((ih _ r h).trans htail)

lemma tzi_suffix (s : List Nat) (colon : List Nat → ParseResult (List Nat))
    (allowM : Bool) (r : List Nat) (v : Int)
    (hcolon : ∀ t t', colon t = .ok t' → t'.IsSuffix t)
    (h : timezone_offset_internal s colon allowM = .ok (r, v)) : r.IsSuffix s := by
  cases s with
  | nil => exact absurd h (by simp [timezone_offset_internal])
  | cons c s1 =>
    simp only [timezone_offset_internal] at h
    split at h
    · split at h
      · exact absurd h (by simp)
      · rename_i h1 h2 hdig
        split at h
        · split at h
          · exact absurd h (by simp)
          · rename_i s3 hs3
            have hsuf3 : s3.IsSuffix (c :: s1) := by
              have := hcolon _ _ hs3
              exact this.trans ((List.drop_suffix 2 s1).trans ⟨[c], rfl⟩)
            split at h
            · exact absurd h (by simp)
            · split at h
              · exact absurd h (by simp)
              · rename_i s4 hs4
                obtain ⟨hr, hv⟩ := Prod.mk.inj (Except.ok.inj h)
                rw [← hr]
                split at hs4
                · cases Except.ok.inj hs4
                  exact (List.drop_suffix 2 s3).trans hsuf3
                · split at hs4
                  · cases Except.ok.inj hs4
                    exact hsuf3
                  · exact absurd hs4 (by simp)
        · exact absurd h (by simp)
    · exact absurd h (by simp)

lemma short_month0_suffix (s r : List Nat) (m : Nat)
    (h : short_month0 s = .ok (r, m)) : r.IsSuffix s := by
  match s with
  | [] => exact absurd h (by simp [short_month0])
  | [a] => exact absurd h (by simp [short_month0])
  | [a, b] => exact absurd h (by simp [short_month0])
  | a :: b :: c :: rest =>
    simp only [short_month0] at h
    split at h
    · obtain ⟨h1, h2⟩ := Prod.mk.inj (Except.ok.inj h)
      rw [← h1]
      exact ⟨[a, b, c], rfl⟩
    · exact absurd h (by simp)

lemma short_weekday_suffix (s r : List Nat) (w : Weekday)
    (h : short_weekday s = .ok (r, w)) : r.IsSuffix s := by
  match s with
  | [] => exact absurd h (by simp [short_weekday])
  | [a] => exact absurd h (by simp [short_weekday])
  | [a, b] => exact absurd h (by simp [short_weekday])
  | a :: b :: c :: rest =>
    simp only [short_weekday] at h
    split at h
    · obtain ⟨h1, h2⟩ := Prod.mk.inj (Except.ok.inj h)
      rw [← h1]
      exact ⟨[a, b, c], rfl⟩
    · exact absurd h (by simp)

lemma short_or_long_month0_suffix (s r : List Nat) (m : Nat)
    (h : short_or_long_month0 s = .ok (r, m)) : r.IsSuffix s := by
  simp only [short_or_long_month0] at h
  split at h
  · exact absurd h (by simp)
  · rename_i s1 m0 hshort
    have hs1 := short_month0_suffix s s1 m0 hshort
    split at h
    · obtain ⟨h1, h2⟩ := Prod.mk.inj (Except.ok.inj h)
      rw [← h1]
      exact (List.drop_suffix _ s1).trans hs1
    · obtain ⟨h1, h2⟩ := Prod.mk.inj (Except.ok.inj h)
      rw [← h1]
      exact hs1

lemma short_or_long_weekday_suffix (s r : List Nat) (w : Weekday)
    (h : short_or_long_weekday s = .ok (r, w)) : r.IsSuffix s := by
  simp only [short_or_long_weekday] at h
  split at h
  · exact absurd h (by simp)
  · rename_i s1 w0 hshort
    have hs1 := short_weekday_suffix s s1 w0 hshort
    split at h
    · obtain ⟨h1, h2⟩ := Prod.mk.inj (Except.ok.inj h)
      rw [← h1]
      exact (List.drop_suffix _ s1).trans hs1
    · obtain ⟨h1, h2⟩ := Prod.mk.inj (Except.ok.inj h)
      rw [← h1]
      exact hs1

lemma tz_zulu_suffix (s : List Nat) (colon : List Nat → ParseResult (List Nat))
    (r : List Nat) (v : Int)
    (hcolon : ∀ t t', colon t = .ok t' → t'.IsSuffix t)
    (h : timezone_offset_zulu s colon = .ok (r, v)) : r.IsSuffix s := by
  simp only [timezone_offset_zulu] at h
  split at h
  · obtain ⟨h1, h2⟩ := Prod.mk.inj (Except.ok.inj h)
    rw [← h1]
    exact ⟨[122], rfl⟩
  · obtain ⟨h1, h2⟩ := Prod.mk.inj (Except.ok.inj h)
    rw [← h1]
    exact ⟨[90], rfl⟩
  · rename_i b c rest
    split at h
    · obtain ⟨h1, h2⟩ := Prod.mk.inj (Except.ok.inj h)
      rw [← h1]
      exact ⟨[117, b, c], rfl⟩
    · exact absurd h (by simp)
  · rename_i b c rest
    split at h
    · obtain ⟨h1, h2⟩ := Prod.mk.inj (Except.ok.inj h)
      rw [← h1]
      exact ⟨[85, b, c], rfl⟩
    · exact absurd h (by simp)
  · exact absurd h (by simp)
  · exact absurd h (by simp)
  · exact tzi_suffix _ colon false r v hcolon h

lemma tz_permissive_suffix (s : List Nat) (colon : List Nat → ParseResult (List Nat))
    (r : List Nat) (v : Int)
    (hcolon : ∀ t t', colon t = .ok t' → t'.IsSuffix t)
    (h : timezone_offset_permissive s colon = .ok (r, v)) : r.IsSuffix s := by
  simp only [timezone_offset_permissive] at h
  split at h
  · obtain ⟨h1, h2⟩ := Prod.mk.inj (Except.ok.inj h)
    rw [← h1]
    exact ⟨[122], rfl⟩
  · obtain ⟨h1, h2⟩ := Prod.mk.inj (Except.ok.inj h)
    rw [← h1]
    exact ⟨[90], rfl⟩
  · exact tzi_suffix _ colon true r v hcolon h

lemma tz2822_suffix (s r : List Nat) (o : Option Int)
    (h : timezone_offset_2822 s = .ok (r, o)) : r.IsSuffix s := by
  simp only [timezone_offset_2822] at h
  by_cases hrun : 0 < (s.takeWhile isAsciiAlpha).length
  · rw [if_pos hrun] at h
    repeat' split at h
    all_goals
      obtain ⟨h1, h2⟩ := Prod.mk.inj (Except.ok.inj h)
    all_goals rw [← h1]
    all_goals exact List.drop_suffix _ s
  · rw [if_neg hrun] at h
    split at h
    · exact absurd h (by simp)
    · rename_i s1 off hok
      obtain ⟨h1, h2⟩ := Prod.mk.inj (Except.ok.inj h)
      rw [← h1]
      exact tzi_suffix s _ false s1 off
        (fun t t' ht => by cases Except.ok.inj ht; exact List.suffix_refl t) hok

/-- Whether the first char of the input is Unicode whitespace. -/
def startsWithWhitespaceChar (s : List Nat) : Bool :=
  match utf8DecodeFirst s with
  | some (cp, _) => isWhitespaceChar cp
  | none => false

lemma consume_colon_maybe_eq_iff (s : List Nat) :
    consume_colon_maybe s = .ok s ↔ s.head? ≠ some 58 := by
  cases s with
  | nil => simp [consume_colon_maybe]
  | cons c t =>
    simp only [consume_colon_maybe, List.length_cons, List.head?_cons]
    rw [if_neg (by omega)]
    by_cases hc : c = 58
    · subst hc
      rw [if_pos rfl]
      have hsn : s_next (58 :: t) = t := by simp [s_next, utf8DecodeFirst]
      rw [hsn]
      constructor
      · intro heq
        have := congrArg List.length (Except.ok.inj heq)
        simp at this
      · intro hne
        exact absurd rfl hne
    · rw [if_neg (by simp [hc])]
      simp [hc]

lemma trim1_eq_iff (s : List Nat) :
    trim1 s = s ↔ startsWithWhitespaceChar s = false := by
  simp only [trim1, startsWithWhitespaceChar]
  cases hdec : utf8DecodeFirst s with
  | none => simp
  | some x =>
    obtain ⟨cp, rest⟩ := x
    by_cases hw : isWhitespaceChar cp
    · simp only [hw, if_true]
      have hlen := (utf8DecodeFirst_result s cp rest hdec).2
      have hsn : s_next s = rest := by simp [s_next, hdec]
      rw [hsn]
      constructor
      · intro heq
        have := congrArg List.length heq
        omega
      · intro hfalse
        exact absurd hfalse (by simp)
    · simp [hw]

/-- C9: on success every routine's remainder is a suffix of its input (so
its length is at most the input's), routines with an injected separator
consumer preserving this provided the consumer does; and the explicit
zero-width success paths are characterized exactly: `consume_colon_maybe`
returns its input unchanged iff the input does not start with `:`, and
`trim1` iff the first char is not whitespace. -/
theorem c9_remainder_is_suffix :
    (∀ (s : List Nat) (mn mx : Nat) (r : List Nat) (v : Int),
      number s mn mx = .ok (r, v) → r.IsSuffix s)
    ∧ (∀ (s r : List Nat) (v : Int), nanosecond s = some (.ok (r, v)) → r.IsSuffix s)
    ∧ (∀ (s : List Nat) (d : Nat) (r : List Nat) (v : Int),
      nanosecond_fixed s d = some (.ok (r, v)) → r.IsSuffix s)
    ∧ (∀ (s r : List Nat) (m : Nat), short_month0 s = .ok (r, m) → r.IsSuffix s)
    ∧ (∀ (s r : List Nat) (w : Weekday), short_weekday s = .ok (r, w) → r.IsSuffix s)
    ∧ (∀ (s r : List Nat) (m : Nat), short_or_long_month0 s = .ok (r, m) → r.IsSuffix s)
    ∧ (∀ (s r : List Nat) (w : Weekday),
      short_or_long_weekday s = .ok (r, w) → r.IsSuffix s)
    ∧ (∀ (s : List Nat) (c : Nat) (r : List Nat), char s c = .ok r → r.IsSuffix s)
    ∧ (∀ (s r : List Nat), space s = .ok r → r.IsSuffix s ∧ r.length < s.length)
    ∧ (∀ s : List Nat, (s_next s).IsSuffix s)
    ∧ (∀ s : List Nat, (trim1 s).IsSuffix s)
    ∧ (∀ (s r : List Nat), consume_colon_maybe s = .ok r → r.IsSuffix s)
    ∧ (∀ (s : List Nat) (colon : List Nat → ParseResult (List Nat)) (allowM : Bool)
        (r : List Nat) (v : Int),
      (∀ t t', colon t = .ok t' → t'.IsSuffix t) →
      timezone_offset_internal s colon allowM = .ok (r, v) → r.IsSuffix s)
    ∧ (∀ (s : List Nat) (colon : List Nat → ParseResult (List Nat)) (r : List Nat)
        (v : Int),
      (∀ t t', colon t = .ok t' → t'.IsSuffix t) →
      timezone_offset_zulu s colon = .ok (r, v) → r.IsSuffix s)
    ∧ (∀ (s : List Nat) (colon : List Nat → ParseResult (List Nat)) (r : List Nat)
        (v : Int),
      (∀ t t', colon t = .ok t' → t'.IsSuffix t) →
      timezone_offset_permissive s colon = .ok (r, v) → r.IsSuffix s)
    ∧ (∀ (s r : List Nat) (o : Option Int),
      timezone_offset_2822 s = .ok (r, o) → r.IsSuffix s)
    ∧ (∀ (s r : List Nat), timezone_name_skip s = .ok (r, ()) → r.IsSuffix s)
    ∧ (∀ (s r : List Nat), comment_2822 s = .ok (r, ()) → r.IsSuffix s)
    ∧ (∀ s : List Nat, consume_colon_maybe s = .ok s ↔ s.head? ≠ some 58)
    ∧ (∀ s : List Nat, trim1 s = s ↔ startsWithWhitespaceChar s = false) := by
  have htrim1 : ∀ s : List Nat, (trim1 s).IsSuffix s := by
    intro s
    simp only [trim1]
    cases hdec : utf8DecodeFirst s with
    | none => exact List.suffix_refl s
    | some x =>
      obtain ⟨cp, rest⟩ := x
      by_cases hw : isWhitespaceChar cp
      · simp only [hw, if_true]
        exact s_next_suffix s
      · simp only [hw]
        exact List.suffix_refl s
  refine ⟨fun s mn mx r v h => number_suffix s mn mx r v h, ?_, ?_,
    fun s r m h => short_month0_suffix s r m h,
    fun s r w h => short_weekday_suffix s r w h,
    fun s r m h => short_or_long_month0_suffix s r m h,
    fun s r w h => short_or_long_weekday_suffix s r w h,
    ?_, ?_, fun s => s_next_suffix s, htrim1, ?_,
    fun s colon allowM r v hc h => tzi_suffix s colon allowM r v hc h,
    fun s colon r v hc h => tz_zulu_suffix s colon r v hc h,
    fun s colon r v hc h => tz_permissive_suffix s colon r v hc h,
    fun s r o h => tz2822_suffix s r o h,
    ?_, ?_,
    fun s => consume_colon_maybe_eq_iff s,
    fun s => trim1_eq_iff s⟩
  · intro s r v h
    simp only [nanosecond] at h
    split at h
    · exact absurd h (by simp)
    · rename_i s1 v0 hnum
      split at h
      · exact absurd h (by simp)
      · split at h
        · exact absurd h (by simp)
        · rename_i v' hmul
          obtain ⟨h1, h2⟩ := Prod.mk.inj (Except.ok.inj (Option.some.inj h))
          rw [← h1]
          exact (trimLeftMatches_suffix isAsciiDigit s1).trans
            (number_suffix s 1 9 s1 v0 hnum)
  · intro s d r v h
    simp only [nanosecond_fixed] at h
    split at h
    · exact absurd h (by simp)
    · rename_i s1 v0 hnum
      split at h
      · exact absurd h (by simp)
      · split at h
        · exact absurd h (by simp)
        · rename_i v' hmul
          obtain ⟨h1, h2⟩ := Prod.mk.inj (Except.ok.inj (Option.some.inj h))
          rw [← h1]
          exact number_suffix s d d s1 v0 hnum
  · intro s c r h
    cases s with
    | nil => exact absurd h (by simp [char])
    | cons x t =>
      simp only [char] at h
      split at h
      · cases Except.ok.inj h
        exact ⟨[x], rfl⟩
      · exact absurd h (by simp)
  · intro s r h
    simp only [space] at h
    split at h
    · rename_i hlt
      cases Except.ok.inj h
      exact ⟨trimLeftMatches_suffix isWhitespaceChar s, hlt⟩
    · split at h
      · exact absurd h (by simp)
      · exact absurd h (by simp)
  · intro s r h
    simp only [consume_colon_maybe] at h
    split at h
    · cases Except.ok.inj h
      exact List.suffix_refl s
    · split at h
      · cases Except.ok.inj h
        exact s_next_suffix s
      · cases Except.ok.inj h
        exact List.suffix_refl s
  · intro s r h
    obtain ⟨h1, h2⟩ := Prod.mk.inj (Except.ok.inj h)
    rw [← h1]
    exact trimLeftMatches_suffix _ s
  · intro s r h
    simp only [comment_2822] at h
    exact (comment_scan_suffix (trimLeft s) .Start r h).trans
      (trimLeftMatches_suffix isWhitespaceChar s)

theorem c9_suffix_witness :
    (bytesOfAscii "3a5").IsSuffix (bytesOfAscii "123a5") ∧
    consume_colon_maybe (bytesOfAscii "ab") = .ok (bytesOfAscii "ab") ∧
    trim1 (bytesOfAscii "xy") = bytesOfAscii "xy" := by
  refine ⟨?_, ?_, ?_⟩
  · exact c9_remainder_is_suffix.1 (bytesOfAscii "123a5") 1 2 (bytesOfAscii "3a5") 12
      (by decide)
  · exact (c9_remainder_is_suffix.2.2.2.2.2.2.2.2.2.2.2.2.2.2.2.2.2.2.1
      (bytesOfAscii "ab")).mpr (by decide)
  · exact (c9_remainder_is_suffix.2.2.2.2.2.2.2.2.2.2.2.2.2.2.2.2.2.2.2
      (bytesOfAscii "xy")).mpr (by decide)
